import Mathlib

/-
Verification of the Relay -> Ethos-N codegen pass
(src/relay/backend/contrib/ethosn/codegen.cc).

The source file is shallowly embedded below.  IR expressions form a DAG and
are keyed by reference identity in the C++ tables; we model them as an arena
of nodes with stable integer indices, and all per-node tables as association
lists keyed by those indices.  The vendor support library (namespace sl:: in
the source) and the per-operator API helpers (EthosnAPI::Concatenate /
EthosnAPI::Split, defined outside this source file) are external
collaborators: they are modelled from the spec, either as explicit parameters
of the engines or as small concrete definitions noted in their doc comments.
-/

deriving instance DecidableEq for Except

namespace EthosnCodegen

/-- Shape of a tensor: four dimensions, matching the vendor library's
four-element shape array. -/
structure TensorShape where
  d0 : Nat
  d1 : Nat
  d2 : Nat
  d3 : Nat
deriving DecidableEq

/-- Element encodings carried by vendor tensor descriptors. -/
inductive SlDataType where
  | UINT8_QUANTIZED
  | INT32_QUANTIZED
deriving DecidableEq

/-- Memory layout tags carried by vendor tensor descriptors. -/
inductive SlDataFormat where
  | NHWC
  | NHWCB
deriving DecidableEq

/-- Quantization parameters (zero point and scale). -/
structure SlQuantizationInfo where
  zeroPoint : Int
  scale : Int
deriving DecidableEq

/-- A tensor descriptor: shape, element encoding, memory layout and
quantization parameters (`sl::TensorInfo`). -/
structure TensorInfo where
  dimensions : TensorShape
  dataType : SlDataType
  dataFormat : SlDataFormat
  quantInfo : SlQuantizationInfo
deriving DecidableEq

/-- The default-constructed descriptor `sl::TensorInfo()`: the unresolved
sentinel both engines compare against. -/
def defaultTensorInfo : TensorInfo :=
  ⟨⟨0, 0, 0, 0⟩, .UINT8_QUANTIZED, .NHWC, ⟨0, 1⟩⟩

/-- The placeholder descriptor the inference pass seeds the function body
with: `sl::TensorInfo({1, 1, 1, 1}, UINT8_QUANTIZED, NHWC,
QuantizationInfo())` (codegen.cc line 61). -/
def seedTensorInfo : TensorInfo :=
  ⟨⟨1, 1, 1, 1⟩, .UINT8_QUANTIZED, .NHWC, ⟨0, 1⟩⟩

/-- Association-table lookup, `std::map::find`. -/
def tfind? {κ α : Type} [DecidableEq κ] (t : List (κ × α)) (k : κ) : Option α :=
  match t with
  | [] => none
  | (k1, v) :: rest => if k1 = k then some v else tfind? rest k

/-- Association-table assignment, `map[k] = v`. -/
def tset {κ α : Type} [DecidableEq κ] (t : List (κ × α)) (k : κ) (v : α) :
    List (κ × α) :=
  match t with
  | [] => [(k, v)]
  | (k1, v1) :: rest => if k1 = k then (k, v) :: rest else (k1, v1) :: tset rest k v

/-- Read of a possibly missing key with a default value
(`std::map::operator[]` read immediately followed by use). -/
def tgetD {κ α : Type} [DecidableEq κ] (t : List (κ × α)) (k : κ) (d : α) : α :=
  (tfind? t k).getD d

/-- `map.clear()`. -/
def tclear {κ α : Type} (_t : List (κ × α)) : List (κ × α) := []

/-- List indexing with default, `vector::operator[]` (out-of-range access is
undefined behaviour in C++; the model totalizes it with the default). -/
def nthD {α : Type} (l : List α) (n : Nat) (d : α) : α :=
  match l, n with
  | [], _ => d
  | a :: _, 0 => a
  | _ :: rest, n + 1 => nthD rest n d

/-- The callee of a Call node: either a primitive operator (`OpNode`) with a
name, or anything else (`call->op` not an operator). -/
inductive CalleeKind where
  | opNode (name : String)
  | nonOp
deriving DecidableEq

/-- A node's checked type, reduced to what the pass inspects: whether it is a
tuple type and, if so, its arity. -/
inductive CheckedType where
  | plain
  | tupleType (n : Nat)
deriving DecidableEq

/-- IR node variants: Call, Tuple, TupleGetItem, Var (parameter) and
Function (a traversal boundary).  Children are arena indices. -/
inductive NodeKind where
  | var
  | call (op : CalleeKind) (args : List Nat)
  | tuple (fields : List Nat)
  | tupleGetItem (tup : Nat) (index : Nat)
  | functionNode
deriving DecidableEq

/-- An IR node together with its checked type. -/
structure Node where
  kind : NodeKind
  ty : CheckedType
deriving DecidableEq

/-- The IR graph: an arena of nodes.  Reference identity of C++ `Expr`
objects is modelled by the arena index. -/
structure Graph where
  nodes : List Node
deriving DecidableEq

/-- The child indices an expression refers to. -/
def nodeChildren (k : NodeKind) : List Nat :=
  match k with
  | .var => []
  | .functionNode => []
  | .call _ args => args
  | .tuple fields => fields
  | .tupleGetItem tup _ => [tup]

/-- `IsEthosnOp` (codegen.cc lines 43-51): true when the call's callee is the
named primitive operator. -/
def IsEthosnOp (op : CalleeKind) (op_name : String) : Bool :=
  match op with
  | .opNode n => decide (n = op_name)
  | .nonOp => false

/-- `GetTensorInfo` (codegen.cc lines 36-41): first descriptor of the call's
tensor-table entry, or the default-constructed descriptor if absent. -/
def GetTensorInfo (tensor_table : List (Nat × List TensorInfo)) (call : Nat) :
    TensorInfo :=
  match tfind? tensor_table call with
  | some entry => nthD entry 0 defaultTensorInfo
  | none => defaultTensorInfo

/-- The structured error type (`EthosnError`): a list of messages; it
converts to `true` in `if (err)` precisely when a message is present. -/
structure EthosnError where
  msgs : List String
deriving DecidableEq

/-- `operator bool()` of `EthosnError`. -/
def EthosnError.hasError (e : EthosnError) : Bool := !e.msgs.isEmpty

/-- Abortion of one function's compilation.  Modelled from the spec: a
handler failure or a failed internal check immediately aborts the whole
function's compilation with a fatal diagnostic; `fatal` carries the offending
node and the error messages (`ErrorReportingPass::ReportFatalError`),
`checkFail` models a failed `CHECK`/`LOG(FATAL)`. -/
inductive CompileError where
  | fatal (node : Nat) (msgs : List String)
  | checkFail (msg : String)
deriving DecidableEq

/-- Concatenation parameters produced by the operator registry
(`ConcatenateParams`): one required input descriptor per argument plus the
vendor concatenation descriptor.  Modelled from the spec: the axis is the
only structural parameter the vendor descriptor needs here. -/
structure ConcatInfo where
  axis : Nat
deriving DecidableEq

/-- Vendor split descriptor.  Modelled from the spec: an axis and the split
sizes; the vendor split operation yields one output per size. -/
structure SplitInfo where
  axis : Nat
  sizes : List Nat
deriving DecidableEq

/-- `ConcatenateParams`. -/
structure ConcatenateParams where
  input_infos : List TensorInfo
  concat_info : ConcatInfo
deriving DecidableEq

/-- `SplitParams`. -/
structure SplitParams where
  input_info : TensorInfo
  split_info : SplitInfo
deriving DecidableEq

/-- Modelled from the spec: the per-operator API helpers
`EthosnAPI::Concatenate` and `EthosnAPI::Split` are declared outside this
source file; the engines are parameterized over them.  `concatenate` reads
the call and produces an error plus parameters; `split` additionally
receives the `SplitParams` whose `input_info` the caller pre-populated. -/
structure EthosnAPIModel where
  concatenate : Graph → Nat → EthosnError × ConcatenateParams
  split : Graph → Nat → SplitParams → EthosnError × SplitParams

/-- One expansion event of the metadata-inference visitor: the node that was
dispatched and its tensor-table entry at the moment of dispatch
(instrumentation used to state the gating invariant). -/
structure InferEvent where
  node : Nat
  entry : Option (List TensorInfo)
deriving DecidableEq

/-- State of `InferTensorsVisitor`: the tensor table, the per-node visit
markers of the underlying memoized expression visitor, and the
instrumentation trace of dispatched nodes (newest first). -/
structure InferState where
  tensor_table : List (Nat × List TensorInfo)
  visited : List Nat
  trace : List InferEvent
deriving DecidableEq

/-- `InferTensorsVisitor::InferCall` (codegen.cc lines 68-87).  The table
write happens before the error check, as in the source; an error then aborts
via `ReportFatalError`. -/
def inferCall (api : EthosnAPIModel) (g : Graph) (s : InferState) (cn : Nat)
    (op : CalleeKind) (args : List Nat) : Except CompileError InferState :=
  if IsEthosnOp op "qnn.concatenate" then
    let r := api.concatenate g cn
    let s1 : InferState :=
      { s with tensor_table := tset s.tensor_table (args.headD 0) r.2.input_infos }
    if r.1.hasError then .error (.fatal cn r.1.msgs) else .ok s1
  else if IsEthosnOp op "split" then
    let params : SplitParams :=
      { input_info := GetTensorInfo s.tensor_table cn
        split_info := { axis := 0, sizes := [] } }
    let r := api.split g cn params
    let s1 : InferState :=
      { s with tensor_table := tset s.tensor_table (args.headD 0) [r.2.input_info] }
    if r.1.hasError then .error (.fatal cn r.1.msgs) else .ok s1
  else
    .error (.fatal cn ["unknown operator"])

/-- The gate of `InferTensorsVisitor::VisitInferred`: the node's entry exists
and no slot equals the default-constructed sentinel. -/
def fullyInferred (s : InferState) (e : Nat) : Bool :=
  match tfind? s.tensor_table e with
  | none => false
  | some entry => entry.all (fun info => decide (info ≠ defaultTensorInfo))

/-- The field-distribution loop of `VisitExpr_(const TupleNode*)`
(codegen.cc lines 114-116): field i's entry becomes the singleton holding
slot i of the tuple's entry, reading the table live at each step. -/
def distributeFields (table : List (Nat × List TensorInfo)) (tup : Nat)
    (fields : List Nat) (i : Nat) : List (Nat × List TensorInfo) :=
  match fields with
  | [] => table
  | f :: rest =>
    distributeFields (tset table f [nthD (tgetD table tup []) i defaultTensorInfo])
      tup rest (i + 1)

mutual

/-- `InferTensorsVisitor::VisitInferred` (codegen.cc lines 94-101): visit a
node only when its tensor-table entry exists and no slot is the unresolved
sentinel. -/
def visitInferred (api : EthosnAPIModel) (g : Graph) (fuel : Nat)
    (s : InferState) (e : Nat) : Except CompileError InferState :=
  match fuel with
  | 0 => .ok s
  | fuel + 1 =>
    if fullyInferred s e then visitExpr api g fuel s e else .ok s
termination_by structural fuel

/-- Dispatch of the inference visitor (`ExprVisitor::VisitExpr` followed by
the `VisitExpr_` overloads of codegen.cc lines 103-138).  Modelled from the
spec: the traversal is keyed by node identity and each distinct node is
expanded at most once; Function nodes are a traversal boundary.  The fuel
argument only bounds recursion depth; it is sunk per call. -/
def visitExpr (api : EthosnAPIModel) (g : Graph) (fuel : Nat)
    (s : InferState) (e : Nat) : Except CompileError InferState :=
  match fuel with
  | 0 => .ok s
  | fuel + 1 =>
    if e ∈ s.visited then .ok s
    else
      match g.nodes[e]? with
      | none => .ok s
      | some node =>
        let s1 : InferState :=
          { s with visited := e :: s.visited
                   trace := ⟨e, tfind? s.tensor_table e⟩ :: s.trace }
        match node.kind with
        | .var => .ok s1
        | .functionNode => .ok s1
        | .call op args =>
          match inferCall api g s1 e op args with
          | .error err => .error err
          | .ok s2 => visitInferredList api g fuel s2 args
        | .tuple fields =>
          match tfind? s1.tensor_table e with
          | none => .error (.checkFail "tuple entry missing")
          | some _ =>
            let s2 : InferState :=
              { s1 with tensor_table := distributeFields s1.tensor_table e fields 0 }
            visitExprList api g fuel s2 fields
        | .tupleGetItem tup index =>
          match tfind? s1.tensor_table e with
          | none => .error (.checkFail "tuple get item entry missing")
          | some tgEntry =>
            match g.nodes[tup]? with
            | none => .error (.checkFail "tuple type expected")
            | some tnode =>
              match tnode.ty with
              | .plain => .error (.checkFail "tuple type expected")
              | .tupleType n =>
                let table1 :=
                  match tfind? s1.tensor_table tup with
                  | none => tset s1.tensor_table tup (List.replicate n defaultTensorInfo)
                  | some _ => s1.tensor_table
                let table2 :=
                  tset table1 tup
                    ((tgetD table1 tup []).set index (nthD tgEntry 0 defaultTensorInfo))
                visitInferred api g fuel { s1 with tensor_table := table2 } tup
termination_by structural fuel

/-- The gated recursion over a call's arguments (codegen.cc lines 105-108). -/
def visitInferredList (api : EthosnAPIModel) (g : Graph) (fuel : Nat)
    (s : InferState) (es : List Nat) : Except CompileError InferState :=
  match fuel with
  | 0 => .ok s
  | fuel + 1 =>
    match es with
    | [] => .ok s
    | e :: rest =>
      match visitInferred api g fuel s e with
      | .error err => .error err
      | .ok s1 => visitInferredList api g fuel s1 rest
termination_by structural fuel

/-- The ungated recursion over a tuple's fields (codegen.cc lines 117-120). -/
def visitExprList (api : EthosnAPIModel) (g : Graph) (fuel : Nat)
    (s : InferState) (es : List Nat) : Except CompileError InferState :=
  match fuel with
  | 0 => .ok s
  | fuel + 1 =>
    match es with
    | [] => .ok s
    | e :: rest =>
      match visitExpr api g fuel s e with
      | .error err => .error err
      | .ok s1 => visitExprList api g fuel s1 rest
termination_by structural fuel

end

/-- The number of logical outputs the seeding step assumes for the body
(codegen.cc lines 56-59): the arity of a tuple checked type, otherwise 1. -/
def outputSize (g : Graph) (e : Nat) : Nat :=
  match g.nodes[e]? with
  | some node =>
    match node.ty with
    | .tupleType n => n
    | .plain => 1
  | none => 1

/-- The seeded state at the start of `InferTensorsVisitor::Infer`
(codegen.cc lines 53-64): the table is cleared, then the body's entry is
filled with `outputSize` copies of the placeholder descriptor. -/
def inferSeed (g : Graph) (prev : List (Nat × List TensorInfo)) (expr : Nat) :
    InferState :=
  { tensor_table :=
      tset (tclear prev) expr (List.replicate (outputSize g expr) seedTensorInfo)
    visited := []
    trace := [] }

/-- `InferTensorsVisitor::Infer` (codegen.cc lines 53-66): clear the table,
seed the body's entry, then run the gated visit from the body.  `prev` is the
visitor's tensor table from before the call; it is discarded by the
`clear()`. -/
def Infer (api : EthosnAPIModel) (g : Graph) (fuel : Nat)
    (prev : List (Nat × List TensorInfo)) (expr : Nat) :
    Except CompileError InferState :=
  visitInferred api g fuel (inferSeed g prev expr) expr

/-- An operand handle: one output of an accelerator-graph operation,
identified by the operation's id and the output index within it.  Modelled
from the spec: handles are opaque references owned by the Network; two
lookups returning the same handle are modelled as equal pairs.  A C++
`nullptr` operand is `Option.none` at use sites. -/
abbrev Operand := Nat × Nat

/-- One accelerator operation recorded in the Network.  Modelled from the
spec: the Network accumulates input, concatenation, split and output
operations. -/
inductive NetOpKind where
  | inputOp (info : TensorInfo)
  | concatOp (inputs : List (Option Operand)) (info : ConcatInfo)
  | splitOp (input : Option Operand) (info : SplitInfo)
  | outputOp (operand : Option Operand)
deriving DecidableEq

/-- The mutable accelerator operation graph (`sl::Network`).  Modelled from
the spec: operations accumulate in order and receive fresh ids. -/
structure Network where
  ops : List (Nat × NetOpKind)
  nextId : Nat
deriving DecidableEq

/-- `sl::CreateNetwork()`. -/
def CreateNetwork : Network := ⟨[], 0⟩

/-- `sl::TensorAndId<sl::Operand>`: a single operand handle plus the id of
the operation that produced it. -/
structure TensorAndId where
  tensor : Operand
  operationId : Nat
deriving DecidableEq

/-- `sl::TensorsAndId`: several operand handles plus the producing
operation's id. -/
structure TensorsAndId where
  tensors : List (Option Operand)
  operationId : Nat
deriving DecidableEq

/-- `MakeOps` (codegen.cc lines 140-145). -/
def MakeOps (op : TensorAndId) : TensorsAndId :=
  { tensors := [some op.tensor], operationId := op.operationId }

/-- Modelled from the spec: whether the vendor library throws its
unsupported-operation exception (`sl::NotSupportedException`) for a given
operation-construction call is decided by the opaque vendor; the engines are
parameterized over that behaviour.  `some msg` means the vendor throws with
message `msg`. -/
structure VendorBehavior where
  concatReject : Network → List (Option Operand) → ConcatInfo → Option String
  splitReject : Network → Option Operand → SplitInfo → Option String

/-- `sl::AddInput`: append an input operation, return its single operand
handle and operation id.  Modelled from the spec (vendor library). -/
def AddInput (n : Network) (info : TensorInfo) : Network × TensorAndId :=
  (⟨n.ops ++ [(n.nextId, .inputOp info)], n.nextId + 1⟩, ⟨(n.nextId, 0), n.nextId⟩)

/-- `sl::AddOutput`: append an output operation.  Modelled from the spec
(vendor library). -/
def AddOutput (n : Network) (operand : Option Operand) : Network :=
  ⟨n.ops ++ [(n.nextId, .outputOp operand)], n.nextId + 1⟩

/-- `sl::AddConcatenation`: either throws the vendor's unsupported-operation
exception or appends a concatenation operation with one output.  Modelled
from the spec (vendor library); an `Except.error m` is the thrown exception
with message `m`. -/
def AddConcatenation (vb : VendorBehavior) (n : Network)
    (layers : List (Option Operand)) (info : ConcatInfo) :
    Except String (Network × TensorAndId) :=
  match vb.concatReject n layers info with
  | some m => .error m
  | none =>
    .ok (⟨n.ops ++ [(n.nextId, .concatOp layers info)], n.nextId + 1⟩,
         ⟨(n.nextId, 0), n.nextId⟩)

/-- `sl::AddSplit`: either throws the vendor's unsupported-operation
exception or appends a split operation with one output per split size.
Modelled from the spec (vendor library). -/
def AddSplit (vb : VendorBehavior) (n : Network) (input : Option Operand)
    (info : SplitInfo) : Except String (Network × TensorsAndId) :=
  match vb.splitReject n input info with
  | some m => .error m
  | none =>
    .ok (⟨n.ops ++ [(n.nextId, .splitOp input info)], n.nextId + 1⟩,
         ⟨(List.range info.sizes.length).map (fun i => some (n.nextId, i)), n.nextId⟩)

/-- State of `ConstructNetworkVisitor`: the Network under construction, the
operand and identifier tables, the tensor table produced by inference, the
per-node visit markers of the memoized traversal, and the instrumentation
trace of dispatched nodes (newest first). -/
structure ConstructState where
  network : Network
  operand_table : List (Nat × List (Option Operand))
  id_table : List (Nat × List (Nat × Nat))
  tensor_table : List (Nat × List TensorInfo)
  visited : List Nat
  trace : List Nat
deriving DecidableEq

/-- `ConstructNetworkVisitor::MakeConcatenateLayer` (codegen.cc lines
230-249): run the registry helper, collect the argument tuple's operand
entry, call the vendor, and convert a vendor exception into the structured
error type. -/
def MakeConcatenateLayer (api : EthosnAPIModel) (vb : VendorBehavior)
    (g : Graph) (s : ConstructState) (call : Nat) (args : List Nat) :
    Except EthosnError (Network × TensorAndId) :=
  let r := api.concatenate g call
  if r.1.hasError then .error r.1
  else
    let layers := tgetD s.operand_table (args.headD 0) []
    match AddConcatenation vb s.network layers r.2.concat_info with
    | .error m => .error ⟨[m]⟩
    | .ok out => .ok out

/-- `ConstructNetworkVisitor::MakeSplitLayer` (codegen.cc lines 251-266). -/
def MakeSplitLayer (api : EthosnAPIModel) (vb : VendorBehavior) (g : Graph)
    (s : ConstructState) (call : Nat) (args : List Nat) :
    Except EthosnError (Network × TensorsAndId) :=
  let params : SplitParams :=
    { input_info := GetTensorInfo s.tensor_table call
      split_info := { axis := 0, sizes := [] } }
  let r := api.split g call params
  if r.1.hasError then .error r.1
  else
    let input := nthD (tgetD s.operand_table (args.headD 0) []) 0 none
    match AddSplit vb s.network input r.2.split_info with
    | .error m => .error ⟨[m]⟩
    | .ok out => .ok out

/-- `ConstructNetworkVisitor::HandleCall` (codegen.cc lines 178-194): map
the call to an operator handler, aborting with "unknown operator" when the
callee is neither registered operator. -/
def HandleCall (api : EthosnAPIModel) (vb : VendorBehavior) (g : Graph)
    (s : ConstructState) (cn : Nat) (op : CalleeKind) (args : List Nat) :
    Except CompileError (Network × TensorsAndId) :=
  if IsEthosnOp op "qnn.concatenate" then
    match MakeConcatenateLayer api vb g s cn args with
    | .error err => .error (.fatal cn err.msgs)
    | .ok out => .ok (out.1, MakeOps out.2)
  else if IsEthosnOp op "split" then
    match MakeSplitLayer api vb g s cn args with
    | .error err => .error (.fatal cn err.msgs)
    | .ok out => .ok out
  else
    .error (.fatal cn ["unknown operator"])

/-- The per-field loop of `VisitExpr_(const TupleNode*)` in the construction
engine (codegen.cc lines 204-217): copy singleton field entries (operand and
identifier), record a null operand and a (0, 0) identifier otherwise. -/
def constructTupleGo (s : ConstructState) (tup : Nat) (fields : List Nat) :
    ConstructState :=
  match fields with
  | [] => s
  | a :: rest =>
    let entry := tgetD s.operand_table a []
    let s1 : ConstructState :=
      if entry.length = 1 then
        { s with
            operand_table :=
              tset s.operand_table tup
                (tgetD s.operand_table tup [] ++ [nthD entry 0 none])
            id_table :=
              tset s.id_table tup
                (tgetD s.id_table tup [] ++ [nthD (tgetD s.id_table a []) 0 (0, 0)]) }
      else
        { s with
            operand_table := tset s.operand_table tup (tgetD s.operand_table tup [] ++ [none])
            id_table := tset s.id_table tup (tgetD s.id_table tup [] ++ [(0, 0)]) }
    constructTupleGo s1 tup rest

mutual

/-- Dispatch of the construction visitor: `MixedModeVisitor` traversal with
the `VisitExpr_` overloads of codegen.cc lines 196-223 and the `VisitLeaf`
override of lines 225-228.  Modelled from the spec: the traversal is
post-order (children before the node), memoized per node, and does not
descend into Function nodes. -/
def constructVisit (api : EthosnAPIModel) (vb : VendorBehavior) (g : Graph)
    (fuel : Nat) (s : ConstructState) (e : Nat) :
    Except CompileError ConstructState :=
  match fuel with
  | 0 => .ok s
  | fuel + 1 =>
    match g.nodes[e]? with
    | none => .ok s
    | some node =>
      match node.kind with
      | .functionNode => .ok s
      | _ =>
        if e ∈ s.visited then .ok s
        else
          match constructVisitList api vb g fuel s (nodeChildren node.kind) with
          | .error err => .error err
          | .ok s1 =>
            let s2 : ConstructState :=
              { s1 with visited := e :: s1.visited, trace := e :: s1.trace }
            match node.kind with
            | .var => .ok s2
            | .functionNode => .ok s2
            | .call op args =>
              match HandleCall api vb g s2 e op args with
              | .error err => .error err
              | .ok out =>
                .ok { s2 with
                        network := out.1
                        operand_table := tset s2.operand_table e out.2.tensors
                        id_table :=
                          tset s2.id_table e
                            ((List.range out.2.tensors.length).map
                              (fun i => (out.2.operationId, i))) }
            | .tuple fields => .ok (constructTupleGo s2 e fields)
            | .tupleGetItem tup index =>
              .ok { s2 with
                      operand_table :=
                        tset s2.operand_table e
                          [nthD (tgetD s2.operand_table tup []) index none]
                      id_table :=
                        tset s2.id_table e
                          [nthD (tgetD s2.id_table tup []) index (0, 0)] }
termination_by structural fuel

/-- Post-order traversal of a node's children. -/
def constructVisitList (api : EthosnAPIModel) (vb : VendorBehavior)
    (g : Graph) (fuel : Nat) (s : ConstructState) (es : List Nat) :
    Except CompileError ConstructState :=
  match fuel with
  | 0 => .ok s
  | fuel + 1 =>
    match es with
    | [] => .ok s
    | e :: rest =>
      match constructVisit api vb g fuel s e with
      | .error err => .error err
      | .ok s1 => constructVisitList api vb g fuel s1 rest
termination_by structural fuel

end

/-- The Network together with the two id-indexed maps (input operation id to
runtime argument position, and (output operation id, output index) to
runtime result position). -/
structure NetworkWithIDs where
  network : Network
  input_ids : List (Nat × Nat)
  output_ids : List ((Nat × Nat) × Nat)
deriving DecidableEq

/-- A Relay function: ordered parameters (arena indices of Var nodes) and a
body. -/
structure RFunction where
  params : List Nat
  body : Nat
deriving DecidableEq

/-- The inner loop of the parameter registration (codegen.cc lines 159-164):
for each resolved descriptor of one parameter, add a Network input, record
the handle and identifier, and map the new operation id to the running input
position. -/
def addOneParamInputs (p : Nat) (infos : List TensorInfo) (st : ConstructState)
    (ids : List (Nat × Nat)) (idx : Nat) :
    ConstructState × List (Nat × Nat) × Nat :=
  match infos with
  | [] => (st, ids, idx)
  | info :: rest =>
    let r := AddInput st.network info
    let st1 : ConstructState :=
      { st with
          network := r.1
          operand_table :=
            tset st.operand_table p (tgetD st.operand_table p [] ++ [some r.2.tensor])
          id_table :=
            tset st.id_table p (tgetD st.id_table p [] ++ [(r.2.operationId, 0)]) }
    addOneParamInputs p rest st1 (tset ids r.2.operationId idx) (idx + 1)

/-- The parameter loop of `Construct` (codegen.cc lines 157-165). -/
def addParamInputs (params : List Nat) (st : ConstructState)
    (ids : List (Nat × Nat)) (idx : Nat) :
    ConstructState × List (Nat × Nat) × Nat :=
  match params with
  | [] => (st, ids, idx)
  | p :: rest =>
    let r := addOneParamInputs p (tgetD st.tensor_table p []) st ids idx
    addParamInputs rest r.1 r.2.1 r.2.2

/-- The output loop of `Construct` (codegen.cc lines 169-174): register each
operand of the body's operand-table entry as a Network output and map its
identifier pair to the running output position. -/
def addOutputsLoop (net : Network) (out_ids : List ((Nat × Nat) × Nat))
    (idPairs : List (Nat × Nat)) (idx : Nat) (layers : List (Option Operand)) :
    Network × List ((Nat × Nat) × Nat) :=
  match layers with
  | [] => (net, out_ids)
  | layer :: rest =>
    let net1 := AddOutput net layer
    let out_ids1 := tset out_ids (nthD idPairs idx (0, 0)) idx
    addOutputsLoop net1 out_ids1 idPairs (idx + 1) rest

/-- `ConstructNetworkVisitor::Construct` (codegen.cc lines 147-176).  The
visitor object is created afresh for each compilation call (modelled from
the spec: all tables are scoped to one compilation call), so the identifier
table and the visit markers start empty; the operand table is explicitly
cleared and the tensor table is overwritten with the inference result,
mirroring the source.  `prevOperand` and `prevTensor` are the visitor's
tables from before the call. -/
def Construct (api : EthosnAPIModel) (vb : VendorBehavior) (g : Graph)
    (fuel : Nat) (prevOperand : List (Nat × List (Option Operand)))
    (prevTensor : List (Nat × List TensorInfo)) (func : RFunction) :
    Except CompileError (NetworkWithIDs × ConstructState) :=
  let network0 := CreateNetwork
  let operand0 := tclear prevOperand
  match Infer api g fuel (tclear prevTensor) func.body with
  | .error err => .error err
  | .ok inferred =>
    let s0 : ConstructState :=
      { network := network0, operand_table := operand0, id_table := []
        tensor_table := inferred.tensor_table, visited := [], trace := [] }
    let r := addParamInputs func.params s0 [] 0
    match constructVisit api vb g fuel r.1 func.body with
    | .error err => .error err
    | .ok s2 =>
      let outs :=
        addOutputsLoop s2.network [] (tgetD s2.id_table func.body []) 0
          (tgetD s2.operand_table func.body [])
      .ok ({ network := outs.1, input_ids := r.2.1, output_ids := outs.2 },
           { s2 with network := outs.1 })

/-- Per declared artifact input buffer: the id of the operation it was
sourced from (`sl::InputBufferInfo`). -/
structure InputBufferInfo where
  m_SourceOperationId : Nat
deriving DecidableEq

/-- Per declared artifact output buffer: the id and output index of the
operation it was sourced from (`sl::OutputBufferInfo`). -/
structure OutputBufferInfo where
  m_SourceOperationId : Nat
  m_SourceOperationOutputIndex : Nat
deriving DecidableEq

/-- The immutable compiled artifact, reduced to the buffer metadata the
orchestrator reads (`sl::CompiledNetwork`). -/
structure CompiledNetwork where
  inputBufferInfos : List InputBufferInfo
  outputBufferInfos : List OutputBufferInfo
deriving DecidableEq

/-- The packaged compiled unit
(`runtime::ethosn::OrderedCompiledNetwork`). -/
structure OrderedCompiledNetwork where
  name : String
  cmm : CompiledNetwork
  inputs : List Nat
  outputs : List Nat
deriving DecidableEq

/-- `EthosnCompiler::GetInputOutputOrder` (codegen.cc lines 339-356): map
each artifact input buffer to the position recorded for its source operation
id, and each artifact output buffer to the position recorded for its (source
operation id, source output index) pair.  A missing key yields the
default-inserted 0, as `std::map::operator[]` does. -/
def GetInputOutputOrder (network : NetworkWithIDs)
    (compiled : CompiledNetwork) : List Nat × List Nat :=
  (compiled.inputBufferInfos.map
     (fun i => tgetD network.input_ids i.m_SourceOperationId 0),
   compiled.outputBufferInfos.map
     (fun o => tgetD network.output_ids
        (o.m_SourceOperationId, o.m_SourceOperationOutputIndex) 0))

/-- `EthosnCompiler::CompileEthosnFunc` (codegen.cc lines 286-309).  The
vendor compiler (`sl::Compile`) and the materialized compilation options are
opaque parameters; the second component of the result is the instrumentation
log of vendor-compiler invocations with their arguments.  An empty candidate
list fails the `CHECK_GE` and aborts; otherwise the first candidate is
selected and packaged with the reconciled orders. -/
def CompileEthosnFunc {O : Type} (api : EthosnAPIModel) (vb : VendorBehavior)
    (g : Graph) (compiler : Network → O → List CompiledNetwork) (options : O)
    (fuel : Nat) (name : String) (func : RFunction) :
    Except CompileError OrderedCompiledNetwork × List (Network × O) :=
  match Construct api vb g fuel [] [] func with
  | .error err => (.error err, [])
  | .ok r =>
    let nw := r.1
    let compiled_networks := compiler nw.network options
    let log := [(nw.network, options)]
    match compiled_networks with
    | [] => (.error (.checkFail "Ethos-N compiler failed to compile network"), log)
    | c :: _ =>
      let order := GetInputOutputOrder nw c
      (.ok { name := name, cmm := c, inputs := order.1, outputs := order.2 }, log)

/-- Output arity of a checked type: 1 for a plain tensor, the declared arity
for a tuple type. -/
def arity (ty : CheckedType) : Nat :=
  match ty with
  | .plain => 1
  | .tupleType n => n

/-- Output arity of the node at index `k` (1 for indices outside the
arena). -/
def arityOf (g : Graph) (k : Nat) : Nat :=
  match g.nodes[k]? with
  | some node => arity node.ty
  | none => 1

/-- Wellformedness of one node at index `i`: children precede it in the
arena (the graph is a DAG in topological order, reflecting immutable shared
IR nodes), tuple arities are positive, a Tuple's checked type matches its
field count, tuple fields are plain typed (nested tuples are unsupported),
a TupleProjection's source has a tuple type covering the index, and a split
call's argument is plain typed.  These are facts the host IR type checker
guarantees for graphs this pass receives. -/
def nodeWFb (g : Graph) (i : Nat) (node : Node) : Bool :=
  (nodeChildren node.kind).all (fun c => decide (c < i)) &&
  (match node.ty with
   | .tupleType n => decide (1 ≤ n)
   | .plain => true) &&
  (match node.kind with
   | .tuple fields =>
     decide (node.ty = .tupleType fields.length) &&
     fields.all (fun f =>
       match g.nodes[f]? with
       | some fn => decide (fn.ty = .plain)
       | none => true)
   | .tupleGetItem tup index =>
     (match g.nodes[tup]? with
      | some tn =>
        match tn.ty with
        | .tupleType n => decide (index < n)
        | .plain => false
      | none => true)
   | .call op args =>
     (if IsEthosnOp op "split" then
        match g.nodes[args.headD 0]? with
        | some an => decide (an.ty = .plain)
        | none => true
      else true)
   | _ => true)

/-- Wellformedness of the whole arena. -/
def graphWF (g : Graph) : Bool :=
  (List.range g.nodes.length).all (fun i =>
    match g.nodes[i]? with
    | some node => nodeWFb g i node
    | none => true)

/-- Properties of the operator-registry metadata handlers, as the spec
describes them for this graph: the concatenate handler derives one resolved
(non-sentinel) descriptor per logical output of the call's tuple argument,
and the split handler assigns the looked-up input descriptor to the sole
argument unchanged. -/
def ApiOk (api : EthosnAPIModel) (g : Graph) : Prop :=
  (∀ c node op args, g.nodes[c]? = some node → node.kind = .call op args →
     IsEthosnOp op "qnn.concatenate" = true →
     (api.concatenate g c).2.input_infos.length = arityOf g (args.headD 0) ∧
     ∀ info ∈ (api.concatenate g c).2.input_infos, info ≠ defaultTensorInfo) ∧
  (∀ c params, (api.split g c params).2.input_info = params.input_info)

/-- Every tensor-table entry has the length of its node's output arity. -/
def EntryLen (g : Graph) (t : List (Nat × List TensorInfo)) : Prop :=
  ∀ k entry, tfind? t k = some entry → entry.length = arityOf g k

/-- The node's entry exists and every slot differs from the unresolved
sentinel (the property `VisitInferred` gates on). -/
def ResolvedAt (t : List (Nat × List TensorInfo)) (e : Nat) : Prop :=
  ∃ entry, tfind? t e = some entry ∧ ∀ info ∈ entry, info ≠ defaultTensorInfo

/-- Invariant of the instrumentation trace: no node is dispatched twice,
every dispatched node is marked visited, and at each dispatch the node's
entry existed with every slot resolved. -/
def TraceOK (s : InferState) : Prop :=
  (s.trace.map InferEvent.node).Nodup ∧
  (∀ ev ∈ s.trace, ev.node ∈ s.visited) ∧
  (∀ ev ∈ s.trace, ∃ entry, ev.entry = some entry ∧
     ∀ info ∈ entry, info ≠ defaultTensorInfo)

/-- The inference-state invariant. -/
def GoodState (g : Graph) (s : InferState) : Prop :=
  EntryLen g s.tensor_table ∧ TraceOK s

/-- How one inference step extends the state: fully resolved entries stay
fully resolved, visit markers only grow, and the trace is only appended
to. -/
def InferMono (s s1 : InferState) : Prop :=
  (∀ e, ResolvedAt s.tensor_table e → ResolvedAt s1.tensor_table e) ∧
  (∀ e, e ∈ s.visited → e ∈ s1.visited) ∧
  (∃ t, s1.trace = t ++ s.trace)

/-- Invariant of the construction-engine trace. -/
def ConstructTraceOK (s : ConstructState) : Prop :=
  s.trace.Nodup ∧ ∀ e ∈ s.trace, e ∈ s.visited

/-- A concrete registry model for the demonstration graphs: concatenate
reports two resolved descriptors, split passes its input descriptor
through. -/
def demoApi : EthosnAPIModel :=
  { concatenate := fun _ _ =>
      (⟨[]⟩, { input_infos := [seedTensorInfo, seedTensorInfo], concat_info := ⟨0⟩ })
    split := fun _ _ params => (⟨[]⟩, params) }

/-- A vendor that accepts every operation. -/
def demoVb : VendorBehavior :=
  { concatReject := fun _ _ _ => none
    splitReject := fun _ _ _ => none }

/-- Demonstration graph for the gating property: a split with two logical
outputs reaching the body tuple through two distinct projections
(node 1 = `split(p)`, nodes 2 and 3 = its projections, node 4 = the body
tuple). -/
def demoSplitGraph : Graph :=
  ⟨[{ kind := .var, ty := .plain },
    { kind := .call (.opNode "split") [0], ty := .tupleType 2 },
    { kind := .tupleGetItem 1 0, ty := .plain },
    { kind := .tupleGetItem 1 1, ty := .plain },
    { kind := .tuple [2, 3], ty := .tupleType 2 }]⟩

/-- Demonstration graph for the sharing property: parameter 0 is an argument
of the two concatenate calls 2 and 4 (through the argument tuples 1 and 3);
the body is call 4. -/
def demoShareGraph : Graph :=
  ⟨[{ kind := .var, ty := .plain },
    { kind := .tuple [0, 0], ty := .tupleType 2 },
    { kind := .call (.opNode "qnn.concatenate") [1], ty := .plain },
    { kind := .tuple [0, 2], ty := .tupleType 2 },
    { kind := .call (.opNode "qnn.concatenate") [3], ty := .plain }]⟩

/-- Demonstration graph with a call to an operator no handler is registered
for (node 1 = `add(p)`, the body). -/
def demoUnknownGraph : Graph :=
  ⟨[{ kind := .var, ty := .plain },
    { kind := .call (.opNode "add") [0], ty := .plain }]⟩

/-- Demonstration graph whose body is a single parameter. -/
def demoVarGraph : Graph :=
  ⟨[{ kind := .var, ty := .plain }]⟩

theorem tfind?_tset {κ α : Type} [DecidableEq κ] (t : List (κ × α)) (k j : κ)
    (v : α) : tfind? (tset t k v) j = if k = j then some v else tfind? t j := by
  induction t with
  | nil => by_cases h : k = j <;> simp [tset, tfind?, h]
  | cons hd tl ih =>
    obtain ⟨k1, v1⟩ := hd
    by_cases h1 : k1 = k
    · subst h1
      by_cases h2 : k1 = j <;> simp [tset, tfind?, h2]
    · by_cases h2 : k1 = j
      · have hjk : ¬ j = k := fun h => h1 (h2.trans h)
        have hkj : ¬ k = j := fun h => hjk h.symm
        simp [tset, h1, tfind?, h2, hjk, hkj]
      · simp [tset, h1, tfind?, h2, ih]

theorem tfind?_tset_self {κ α : Type} [DecidableEq κ] (t : List (κ × α))
    (k : κ) (v : α) : tfind? (tset t k v) k = some v := by
  simp [tfind?_tset]

theorem tfind?_tset_ne {κ α : Type} [DecidableEq κ] (t : List (κ × α))
    {k j : κ} (v : α) (h : k ≠ j) : tfind? (tset t k v) j = tfind? t j := by
  simp [tfind?_tset, h]

theorem nthD_mem {α : Type} (l : List α) (n : Nat) (d : α)
    (h : n < l.length) : nthD l n d ∈ l := by
  induction l generalizing n with
  | nil => simp at h
  | cons a tl ih =>
    cases n with
    | zero => exact List.mem_cons_self a tl
    | succ n =>
      have h1 : n < tl.length := by simpa using h
      exact List.mem_cons_of_mem a (ih n h1)

theorem mem_of_mem_set {α : Type} {l : List α} {n : Nat} {v a : α}
    (h : a ∈ l.set n v) : a ∈ l ∨ a = v := by
  induction l generalizing n with
  | nil => simp [List.set] at h
  | cons b tl ih =>
    cases n with
    | zero =>
      rcases List.mem_cons.mp h with h1 | h1
      · exact Or.inr h1
      · exact Or.inl (List.mem_cons_of_mem b h1)
    | succ n =>
      rcases List.mem_cons.mp h with h1 | h1
      · exact Or.inl (h1 ▸ List.mem_cons_self b tl)
      · rcases ih h1 with h2 | h2
        · exact Or.inl (List.mem_cons_of_mem b h2)
        · exact Or.inr h2

theorem getElem?_some_lt {α : Type} {l : List α} {i : Nat} {a : α}
    (h : l[i]? = some a) : i < l.length := by
  by_contra hlt
  rw [List.getElem?_eq_none (by omega)] at h
  exact Option.noConfusion h

theorem fullyInferred_resolved {s : InferState} {e : Nat}
    (h : fullyInferred s e = true) : ResolvedAt s.tensor_table e := by
  unfold fullyInferred at h
  cases hf : tfind? s.tensor_table e with
  | none => rw [hf] at h; simp at h
  | some entry =>
    rw [hf] at h
    refine ⟨entry, hf, ?_⟩
    intro info hmem
    have := List.all_eq_true.mp h info hmem
    simpa using this

theorem graphWF_node {g : Graph} (hwf : graphWF g = true) {i : Nat}
    {node : Node} (h : g.nodes[i]? = some node) : nodeWFb g i node = true := by
  have hi : i < g.nodes.length := getElem?_some_lt h
  have h2 := List.all_eq_true.mp hwf i (List.mem_range.mpr hi)
  rw [h] at h2
  simpa using h2

theorem wf_children {g : Graph} (hwf : graphWF g = true) {i : Nat}
    {node : Node} (h : g.nodes[i]? = some node) :
    ∀ c ∈ nodeChildren node.kind, c < i := by
  have hb := graphWF_node hwf h
  unfold nodeWFb at hb
  simp only [Bool.and_eq_true] at hb
  intro c hc
  have := List.all_eq_true.mp hb.1.1 c hc
  simpa using this

theorem wf_arity_pos {g : Graph} (hwf : graphWF g = true) (k : Nat) :
    1 ≤ arityOf g k := by
  unfold arityOf
  cases hk : g.nodes[k]? with
  | none => simp
  | some node =>
    have hb := graphWF_node hwf hk
    unfold nodeWFb at hb
    simp only [Bool.and_eq_true] at hb
    have h2 := hb.1.2
    cases hty : node.ty with
    | plain => simp [hty, arity]
    | tupleType n =>
      rw [hty] at h2
      simp only [decide_eq_true_eq] at h2
      simpa [hty, arity] using h2

theorem wf_tuple {g : Graph} (hwf : graphWF g = true) {i : Nat} {node : Node}
    {fields : List Nat} (h : g.nodes[i]? = some node)
    (hk : node.kind = .tuple fields) :
    node.ty = .tupleType fields.length ∧
    ∀ f ∈ fields, ∀ fn, g.nodes[f]? = some fn → fn.ty = .plain := by
  have hb := graphWF_node hwf h
  unfold nodeWFb at hb
  simp only [Bool.and_eq_true] at hb
  have h2 := hb.2
  rw [hk] at h2
  simp only [Bool.and_eq_true, decide_eq_true_eq] at h2
  refine ⟨h2.1, ?_⟩
  intro f hf fn hfn
  have h3 := List.all_eq_true.mp h2.2 f hf
  rw [hfn] at h3
  simpa using h3

theorem wf_tgi {g : Graph} (hwf : graphWF g = true) {i : Nat} {node : Node}
    {tup index : Nat} (h : g.nodes[i]? = some node)
    (hk : node.kind = .tupleGetItem tup index) :
    ∀ tn, g.nodes[tup]? = some tn → ∃ n, tn.ty = .tupleType n ∧ index < n := by
  have hb := graphWF_node hwf h
  unfold nodeWFb at hb
  simp only [Bool.and_eq_true] at hb
  have h2 := hb.2
  rw [hk] at h2
  intro tn htn
  simp only [htn] at h2
  cases hty : tn.ty with
  | plain => simp [hty] at h2
  | tupleType n =>
    simp only [hty, decide_eq_true_eq] at h2
    exact ⟨n, rfl, h2⟩

theorem wf_split_arg {g : Graph} (hwf : graphWF g = true) {i : Nat}
    {node : Node} {op : CalleeKind} {args : List Nat}
    (h : g.nodes[i]? = some node) (hk : node.kind = .call op args)
    (hop : IsEthosnOp op "split" = true) : arityOf g (args.headD 0) = 1 := by
  have hb := graphWF_node hwf h
  unfold nodeWFb at hb
  simp only [Bool.and_eq_true] at hb
  have h2 := hb.2
  rw [hk] at h2
  simp only [hop, if_true] at h2
  unfold arityOf
  cases ha : g.nodes[args.headD 0]? with
  | none => simp
  | some an =>
    simp only [ha, decide_eq_true_eq] at h2
    simp [h2, arity]

theorem entryLen_tset {g : Graph} {t : List (Nat × List TensorInfo)} {k : Nat}
    {entry : List TensorInfo} (hE : EntryLen g t)
    (hlen : entry.length = arityOf g k) : EntryLen g (tset t k entry) := by
  intro j e hj
  rw [tfind?_tset] at hj
  by_cases h : k = j
  · subst h
    rw [if_pos rfl] at hj
    cases hj
    exact hlen
  · rw [if_neg h] at hj
    exact hE j e hj

theorem resolved_tset_of_resolved {t : List (Nat × List TensorInfo)} {k : Nat}
    {entry : List TensorInfo}
    (hres : ∀ info ∈ entry, info ≠ defaultTensorInfo) :
    ∀ e, ResolvedAt t e → ResolvedAt (tset t k entry) e := by
  intro e he
  obtain ⟨en, hfind, hen⟩ := he
  by_cases h : k = e
  · subst h
    exact ⟨entry, tfind?_tset_self t k entry, hres⟩
  · exact ⟨en, by rw [tfind?_tset_ne t entry h]; exact hfind, hen⟩

theorem resolvedAt_tset_self {t : List (Nat × List TensorInfo)} {k : Nat}
    {entry : List TensorInfo}
    (hres : ∀ info ∈ entry, info ≠ defaultTensorInfo) :
    ResolvedAt (tset t k entry) k :=
  ⟨entry, tfind?_tset_self t k entry, hres⟩

theorem resolved_tset_of_absent {t : List (Nat × List TensorInfo)} {k : Nat}
    {entry : List TensorInfo} (habs : tfind? t k = none) :
    ∀ e, ResolvedAt t e → ResolvedAt (tset t k entry) e := by
  intro e he
  obtain ⟨en, hfind, hen⟩ := he
  by_cases h : k = e
  · subst h
    rw [habs] at hfind
    exact Option.noConfusion hfind
  · exact ⟨en, by rw [tfind?_tset_ne t entry h]; exact hfind, hen⟩

theorem inferMono_refl (s : InferState) : InferMono s s :=
  ⟨fun _ h => h, fun _ h => h, ⟨[], rfl⟩⟩

theorem inferMono_trans {a b c : InferState} (h1 : InferMono a b)
    (h2 : InferMono b c) : InferMono a c := by
  obtain ⟨r1, v1, t1, ht1⟩ := h1
  obtain ⟨r2, v2, t2, ht2⟩ := h2
  exact ⟨fun e h => r2 e (r1 e h), fun e h => v2 e (v1 e h),
    ⟨t2 ++ t1, by rw [ht2, ht1, List.append_assoc]⟩⟩

theorem distributeFields_spec :
    ∀ (fields : List Nat) (table : List (Nat × List TensorInfo)) (i tup : Nat),
      tup ∉ fields →
      i + fields.length ≤ (tgetD table tup []).length →
      (∀ j, j ∉ fields →
         tfind? (distributeFields table tup fields i) j = tfind? table j) ∧
      (∀ f ∈ fields, ∃ v,
         tfind? (distributeFields table tup fields i) f = some [v] ∧
         v ∈ tgetD table tup []) := by
  intro fields
  induction fields with
  | nil =>
    intro table i tup _ _
    exact ⟨fun j _ => rfl, fun f hf => absurd hf (List.not_mem_nil f)⟩
  | cons f rest ih =>
    intro table i tup htup hbound
    have hft : f ≠ tup := fun h => htup (h ▸ List.mem_cons_self f rest)
    have htup2 : tup ∉ rest := fun h => htup (List.mem_cons_of_mem f h)
    have hEq : tgetD (tset table f [nthD (tgetD table tup []) i defaultTensorInfo]) tup []
        = tgetD table tup [] := by
      unfold tgetD
      rw [tfind?_tset_ne _ _ hft]
    have hlen : i < (tgetD table tup []).length := by
      simp only [List.length_cons] at hbound
      omega
    have hbound2 : (i + 1) + rest.length ≤
        (tgetD (tset table f [nthD (tgetD table tup []) i defaultTensorInfo]) tup []).length := by
      rw [hEq]
      simp only [List.length_cons] at hbound
      omega
    obtain ⟨ih1, ih2⟩ :=
      ih (tset table f [nthD (tgetD table tup []) i defaultTensorInfo]) (i + 1) tup
        htup2 hbound2
    simp only [distributeFields]
    constructor
    · intro j hj
      have hjf : f ≠ j := fun h => hj (h ▸ List.mem_cons_self f rest)
      have hjr : j ∉ rest := fun h => hj (List.mem_cons_of_mem f h)
      rw [ih1 j hjr, tfind?_tset_ne _ _ hjf]
    · intro x hx
      rcases List.mem_cons.mp hx with hx1 | hx1
      · subst hx1
        by_cases hfr : x ∈ rest
        · obtain ⟨v, hv1, hv2⟩ := ih2 x hfr
          exact ⟨v, hv1, by rwa [hEq] at hv2⟩
        · refine ⟨nthD (tgetD table tup []) i defaultTensorInfo, ?_,
            nthD_mem _ _ _ hlen⟩
          rw [ih1 x hfr, tfind?_tset_self]
      · obtain ⟨v, hv1, hv2⟩ := ih2 x hx1
        exact ⟨v, hv1, by rwa [hEq] at hv2⟩

theorem goodState_mark {g : Graph} {s : InferState} {e : Nat}
    (hs : GoodState g s) (hv : e ∉ s.visited)
    (hres : ResolvedAt s.tensor_table e) :
    GoodState g { s with visited := e :: s.visited,
                         trace := ⟨e, tfind? s.tensor_table e⟩ :: s.trace } ∧
    InferMono s { s with visited := e :: s.visited,
                         trace := ⟨e, tfind? s.tensor_table e⟩ :: s.trace } := by
  obtain ⟨hE, hN, hTV, hTE⟩ := hs
  constructor
  · refine ⟨hE, ?_, ?_, ?_⟩
    · simp only [List.map_cons, List.nodup_cons]
      refine ⟨?_, hN⟩
      intro hmem
      obtain ⟨ev, hev, hevn⟩ := List.mem_map.mp hmem
      exact hv (hevn ▸ hTV ev hev)
    · intro ev hev
      rcases List.mem_cons.mp hev with h | h
      · subst h
        exact List.mem_cons_self _ _
      · exact List.mem_cons_of_mem _ (hTV ev h)
    · intro ev hev
      rcases List.mem_cons.mp hev with h | h
      · subst h
        obtain ⟨entry, hf, hnd⟩ := hres
        exact ⟨entry, hf, hnd⟩
      · exact hTE ev h
  · exact ⟨fun _ h => h, fun _ h => List.mem_cons_of_mem _ h,
      ⟨[⟨e, tfind? s.tensor_table e⟩], rfl⟩⟩

theorem inferCall_ok {api : EthosnAPIModel} {g : Graph} {s s1 : InferState}
    {cn : Nat} {op : CalleeKind} {args : List Nat} {node : Node}
    (hwf : graphWF g = true) (hapi : ApiOk api g)
    (hn : g.nodes[cn]? = some node) (hk : node.kind = .call op args)
    (hE : EntryLen g s.tensor_table)
    (hres : ResolvedAt s.tensor_table cn)
    (h : inferCall api g s cn op args = .ok s1) :
    EntryLen g s1.tensor_table ∧
    (∀ e, ResolvedAt s.tensor_table e → ResolvedAt s1.tensor_table e) ∧
    s1.visited = s.visited ∧ s1.trace = s.trace := by
  simp only [inferCall] at h
  by_cases hc : IsEthosnOp op "qnn.concatenate" = true
  · rw [if_pos hc] at h
    obtain ⟨hlen, hnd⟩ := hapi.1 cn node op args hn hk hc
    by_cases herr : (api.concatenate g cn).1.hasError = true
    · rw [if_pos herr] at h
      exact Except.noConfusion h
    · rw [if_neg herr] at h
      cases h
      exact ⟨entryLen_tset hE hlen, resolved_tset_of_resolved hnd, rfl, rfl⟩
  · rw [if_neg hc] at h
    by_cases hs2 : IsEthosnOp op "split" = true
    · rw [if_pos hs2] at h
      obtain ⟨entry, hfind, hnd⟩ := hres
      have hlen1 : entry.length = arityOf g cn := hE cn entry hfind
      have hpos : 1 ≤ arityOf g cn := wf_arity_pos hwf cn
      have hmem : nthD entry 0 defaultTensorInfo ∈ entry :=
        nthD_mem _ _ _ (by omega)
      have hndv : nthD entry 0 defaultTensorInfo ≠ defaultTensorInfo := hnd _ hmem
      have hGet : GetTensorInfo s.tensor_table cn = nthD entry 0 defaultTensorInfo := by
        unfold GetTensorInfo
        rw [hfind]
      by_cases herr : (api.split g cn
          { input_info := GetTensorInfo s.tensor_table cn
            split_info := { axis := 0, sizes := [] } }).1.hasError = true
      · rw [if_pos herr] at h
        exact Except.noConfusion h
      · rw [if_neg herr] at h
        cases h
        have hnd2 : ∀ info ∈ [(api.split g cn
            { input_info := GetTensorInfo s.tensor_table cn
              split_info := { axis := 0, sizes := [] } }).2.input_info],
            info ≠ defaultTensorInfo := by
          intro info hinfo
          simp only [List.mem_singleton] at hinfo
          subst hinfo
          rw [hapi.2 cn]
          rw [hGet]
          exact hndv
        have hlen2 : ([(api.split g cn
            { input_info := GetTensorInfo s.tensor_table cn
              split_info := { axis := 0, sizes := [] } }).2.input_info] :
            List TensorInfo).length = arityOf g (args.headD 0) := by
          rw [wf_split_arg hwf hn hk hs2]
          simp
        exact ⟨entryLen_tset hE hlen2, resolved_tset_of_resolved hnd2, rfl, rfl⟩
    · rw [if_neg hs2] at h
      exact Except.noConfusion h

theorem inferInvariantAux (api : EthosnAPIModel) (g : Graph)
    (hwf : graphWF g = true) (hapi : ApiOk api g) :
    ∀ fuel : Nat,
      (∀ s e s1, GoodState g s →
         visitInferred api g fuel s e = .ok s1 → GoodState g s1 ∧ InferMono s s1) ∧
      (∀ s e s1, GoodState g s → ResolvedAt s.tensor_table e →
         visitExpr api g fuel s e = .ok s1 → GoodState g s1 ∧ InferMono s s1) ∧
      (∀ s es s1, GoodState g s →
         visitInferredList api g fuel s es = .ok s1 →
         GoodState g s1 ∧ InferMono s s1) ∧
      (∀ s es s1, GoodState g s → (∀ e ∈ es, ResolvedAt s.tensor_table e) →
         visitExprList api g fuel s es = .ok s1 →
         GoodState g s1 ∧ InferMono s s1) := by
  intro fuel
  induction fuel with
  | zero =>
    refine ⟨?_, ?_, ?_, ?_⟩
    · intro s e s1 hs h
      simp only [visitInferred] at h
      cases h
      exact ⟨hs, inferMono_refl s⟩
    · intro s e s1 hs _ h
      simp only [visitExpr] at h
      cases h
      exact ⟨hs, inferMono_refl s⟩
    · intro s es s1 hs h
      simp only [visitInferredList] at h
      cases h
      exact ⟨hs, inferMono_refl s⟩
    · intro s es s1 hs _ h
      simp only [visitExprList] at h
      cases h
      exact ⟨hs, inferMono_refl s⟩
  | succ fuel ih =>
    obtain ⟨ihVI, ihVE, ihVIL, ihVEL⟩ := ih
    refine ⟨?_, ?_, ?_, ?_⟩
    · -- visitInferred
      intro s e s1 hs h
      simp only [visitInferred] at h
      by_cases hg : fullyInferred s e = true
      · rw [if_pos hg] at h
        exact ihVE s e s1 hs (fullyInferred_resolved hg) h
      · rw [if_neg hg] at h
        cases h
        exact ⟨hs, inferMono_refl s⟩
    · -- visitExpr
      intro s e s1 hs hres h
      simp only [visitExpr] at h
      split at h
      · -- already visited
        cases h
        exact ⟨hs, inferMono_refl s⟩
      · rename_i hv
        split at h
        · -- node missing from the arena
          cases h
          exact ⟨hs, inferMono_refl s⟩
        · rename_i node hn
          obtain ⟨hsM, hM⟩ := goodState_mark hs hv hres
          split at h
          · -- Var
            rename_i hk
            cases h
            exact ⟨hsM, hM⟩
          · -- Function boundary
            rename_i hk
            cases h
            exact ⟨hsM, hM⟩
          · -- Call
            rename_i op args hk
            split at h
            · exact Except.noConfusion h
            · rename_i s2 hcall
              obtain ⟨hE2, hRM, hVis, hTr⟩ :=
                inferCall_ok hwf hapi hn hk hsM.1 hres hcall
              have hT2 : TraceOK s2 := by
                unfold TraceOK
                rw [hVis, hTr]
                exact hsM.2
              have hM2 : InferMono
                  { s with visited := e :: s.visited,
                           trace := ⟨e, tfind? s.tensor_table e⟩ :: s.trace } s2 := by
                refine ⟨hRM, ?_, ⟨[], ?_⟩⟩
                · rw [hVis]
                  exact fun _ hx => hx
                · rw [hTr]
                  simp
              obtain ⟨hs3, hM3⟩ := ihVIL s2 args s1 ⟨hE2, hT2⟩ h
              exact ⟨hs3, inferMono_trans hM (inferMono_trans hM2 hM3)⟩
          · -- Tuple
            rename_i fields hk
            split at h
            · exact Except.noConfusion h
            · rename_i entryT hfind
              obtain ⟨entry0, hfind0, hnd0⟩ := hres
              have hTeq : entryT = entry0 :=
                Option.some.inj (hfind0.symm.trans hfind).symm
              have hndT : ∀ info ∈ entryT, info ≠ defaultTensorInfo := by
                rw [hTeq]
                exact hnd0
              have hft := wf_tuple hwf hn hk
              have hchild : ∀ c ∈ fields, c < e := by
                have hcc := wf_children hwf hn
                rw [hk] at hcc
                simpa [nodeChildren] using hcc
              have htupnot : e ∉ fields := fun hmem =>
                Nat.lt_irrefl e (hchild e hmem)
              have hlenE : entryT.length = arityOf g e := hsM.1 e entryT hfind
              have harity : arityOf g e = fields.length := by
                simp [arityOf, hn, hft.1, arity]
              have htget : tgetD s.tensor_table e [] = entryT := by
                unfold tgetD
                rw [hfind]
                exact rfl
              have hbound : 0 + fields.length ≤ (tgetD s.tensor_table e []).length := by
                rw [htget, hlenE, harity]
                omega
              obtain ⟨hD1, hD2⟩ :=
                distributeFields_spec fields s.tensor_table 0 e htupnot hbound
              have helt : e < g.nodes.length := getElem?_some_lt hn
              have hElen2 : EntryLen g (distributeFields s.tensor_table e fields 0) := by
                intro k entry hkfind
                by_cases hkf : k ∈ fields
                · obtain ⟨v, hv1, hv2⟩ := hD2 k hkf
                  rw [hv1] at hkfind
                  cases hkfind
                  have hklt : k < g.nodes.length :=
                    Nat.lt_trans (hchild k hkf) helt
                  have hksome : g.nodes[k]? = some g.nodes[k] :=
                    List.getElem?_eq_getElem hklt
                  have hkplain := hft.2 k hkf _ hksome
                  simp [arityOf, hksome, hkplain, arity]
                · rw [hD1 k hkf] at hkfind
                  exact hsM.1 k entry hkfind
              have hRM2 : ∀ j, ResolvedAt s.tensor_table j →
                  ResolvedAt (distributeFields s.tensor_table e fields 0) j := by
                intro j hj
                by_cases hjf : j ∈ fields
                · obtain ⟨v, hv1, hv2⟩ := hD2 j hjf
                  refine ⟨[v], hv1, ?_⟩
                  intro info hi
                  simp only [List.mem_singleton] at hi
                  subst hi
                  rw [htget] at hv2
                  exact hndT _ hv2
                · obtain ⟨en, he1, he2⟩ := hj
                  exact ⟨en, by rw [hD1 j hjf]; exact he1, he2⟩
              have hpre : ∀ f ∈ fields,
                  ResolvedAt (distributeFields s.tensor_table e fields 0) f := by
                intro f hf
                obtain ⟨v, hv1, hv2⟩ := hD2 f hf
                refine ⟨[v], hv1, ?_⟩
                intro info hi
                simp only [List.mem_singleton] at hi
                subst hi
                rw [htget] at hv2
                exact hndT _ hv2
              obtain ⟨hs3, hM3⟩ := ihVEL
                { tensor_table := distributeFields s.tensor_table e fields 0,
                  visited := e :: s.visited,
                  trace := ⟨e, tfind? s.tensor_table e⟩ :: s.trace }
                fields s1 ⟨hElen2, hsM.2⟩ hpre h
              have hM2 : InferMono
                  { s with visited := e :: s.visited,
                           trace := ⟨e, tfind? s.tensor_table e⟩ :: s.trace }
                  { tensor_table := distributeFields s.tensor_table e fields 0,
                    visited := e :: s.visited,
                    trace := ⟨e, tfind? s.tensor_table e⟩ :: s.trace } :=
                ⟨hRM2, fun _ hx => hx, ⟨[], rfl⟩⟩
              exact ⟨hs3, inferMono_trans hM (inferMono_trans hM2 hM3)⟩
          · -- TupleGetItem
            rename_i tup index hk
            split at h
            · exact Except.noConfusion h
            · rename_i tgEntry hfind
              split at h
              · exact Except.noConfusion h
              · rename_i tnode htn
                split at h
                · exact Except.noConfusion h
                · rename_i n hty
                  obtain ⟨entry0, hfind0, hnd0⟩ := hres
                  have hTeq : tgEntry = entry0 :=
                    Option.some.inj (hfind0.symm.trans hfind).symm
                  have hndT : ∀ info ∈ tgEntry, info ≠ defaultTensorInfo := by
                    rw [hTeq]
                    exact hnd0
                  have hlenE : tgEntry.length = arityOf g e := hsM.1 e tgEntry hfind
                  have hposE : 1 ≤ arityOf g e := wf_arity_pos hwf e
                  have hvmem : nthD tgEntry 0 defaultTensorInfo ∈ tgEntry :=
                    nthD_mem _ _ _ (by omega)
                  have hvnd : nthD tgEntry 0 defaultTensorInfo ≠ defaultTensorInfo :=
                    hndT _ hvmem
                  have harityT : arityOf g tup = n := by
                    simp [arityOf, htn, hty, arity]
                  split at h
                  · -- the source tuple has no entry yet: resize then write
                    rename_i habs
                    have hE1 : EntryLen g
                        (tset s.tensor_table tup (List.replicate n defaultTensorInfo)) :=
                      entryLen_tset hsM.1 (by simp [harityT])
                    have htget1 : tgetD
                        (tset s.tensor_table tup (List.replicate n defaultTensorInfo))
                        tup [] = List.replicate n defaultTensorInfo := by
                      unfold tgetD
                      rw [tfind?_tset_self]
                      rfl
                    have hE2 : EntryLen g
                        (tset (tset s.tensor_table tup (List.replicate n defaultTensorInfo)) tup
                          ((tgetD (tset s.tensor_table tup (List.replicate n defaultTensorInfo)) tup []).set
                            index (nthD tgEntry 0 defaultTensorInfo))) := by
                      refine entryLen_tset hE1 ?_
                      rw [htget1]
                      simp [harityT]
                    have hRMa : ∀ j, ResolvedAt s.tensor_table j →
                        ResolvedAt
                          (tset (tset s.tensor_table tup (List.replicate n defaultTensorInfo)) tup
                            ((tgetD (tset s.tensor_table tup (List.replicate n defaultTensorInfo)) tup []).set
                              index (nthD tgEntry 0 defaultTensorInfo))) j := by
                      intro j hj
                      have hj1 : ResolvedAt
                          (tset s.tensor_table tup (List.replicate n defaultTensorInfo)) j :=
                        resolved_tset_of_absent habs j hj
                      by_cases hjt : tup = j
                      · subst hjt
                        obtain ⟨en, he1, he2⟩ := hj1
                        rw [tfind?_tset_self] at he1
                        cases he1
                        exfalso
                        have hposT : 1 ≤ arityOf g tup := wf_arity_pos hwf tup
                        rw [harityT] at hposT
                        have hdm : defaultTensorInfo ∈ List.replicate n defaultTensorInfo := by
                          rw [List.mem_replicate]
                          exact ⟨by omega, rfl⟩
                        exact he2 _ hdm rfl
                      · obtain ⟨en, he1, he2⟩ := hj1
                        exact ⟨en, by rw [tfind?_tset_ne _ _ hjt]; exact he1, he2⟩
                    obtain ⟨hs3, hM3⟩ := ihVI
                      { tensor_table :=
                          tset (tset s.tensor_table tup (List.replicate n defaultTensorInfo)) tup
                            ((tgetD (tset s.tensor_table tup (List.replicate n defaultTensorInfo)) tup []).set
                              index (nthD tgEntry 0 defaultTensorInfo)),
                        visited := e :: s.visited,
                        trace := ⟨e, tfind? s.tensor_table e⟩ :: s.trace }
                      tup s1 ⟨hE2, hsM.2⟩ h
                    have hM2 : InferMono
                        { s with visited := e :: s.visited,
                                 trace := ⟨e, tfind? s.tensor_table e⟩ :: s.trace }
                        { tensor_table :=
                            tset (tset s.tensor_table tup (List.replicate n defaultTensorInfo)) tup
                              ((tgetD (tset s.tensor_table tup (List.replicate n defaultTensorInfo)) tup []).set
                                index (nthD tgEntry 0 defaultTensorInfo)),
                          visited := e :: s.visited,
                          trace := ⟨e, tfind? s.tensor_table e⟩ :: s.trace } :=
                      ⟨hRMa, fun _ hx => hx, ⟨[], rfl⟩⟩
                    exact ⟨hs3, inferMono_trans hM (inferMono_trans hM2 hM3)⟩
                  · -- the source tuple already has an entry: write in place
                    rename_i prevEntry hprev
                    have htget1 : tgetD s.tensor_table tup [] = prevEntry := by
                      unfold tgetD
                      rw [hprev]
                      exact rfl
                    have hE2 : EntryLen g
                        (tset s.tensor_table tup
                          ((tgetD s.tensor_table tup []).set index
                            (nthD tgEntry 0 defaultTensorInfo))) := by
                      refine entryLen_tset hsM.1 ?_
                      rw [htget1]
                      rw [List.length_set]
                      exact hsM.1 tup prevEntry hprev
                    have hRMa : ∀ j, ResolvedAt s.tensor_table j →
                        ResolvedAt
                          (tset s.tensor_table tup
                            ((tgetD s.tensor_table tup []).set index
                              (nthD tgEntry 0 defaultTensorInfo))) j := by
                      intro j hj
                      by_cases hjt : tup = j
                      · subst hjt
                        obtain ⟨en, he1, he2⟩ := hj
                        have hen : en = prevEntry :=
                          Option.some.inj (he1.symm.trans hprev)
                        refine ⟨_, tfind?_tset_self _ _ _, ?_⟩
                        intro info hi
                        rcases mem_of_mem_set hi with hi1 | hi1
                        · rw [htget1] at hi1
                          exact he2 _ (hen ▸ hi1)
                        · rw [hi1]
                          exact hvnd
                      · obtain ⟨en, he1, he2⟩ := hj
                        exact ⟨en, by rw [tfind?_tset_ne _ _ hjt]; exact he1, he2⟩
                    obtain ⟨hs3, hM3⟩ := ihVI
                      { tensor_table :=
                          tset s.tensor_table tup
                            ((tgetD s.tensor_table tup []).set index
                              (nthD tgEntry 0 defaultTensorInfo)),
                        visited := e :: s.visited,
                        trace := ⟨e, tfind? s.tensor_table e⟩ :: s.trace }
                      tup s1 ⟨hE2, hsM.2⟩ h
                    have hM2 : InferMono
                        { s with visited := e :: s.visited,
                                 trace := ⟨e, tfind? s.tensor_table e⟩ :: s.trace }
                        { tensor_table :=
                            tset s.tensor_table tup
                              ((tgetD s.tensor_table tup []).set index
                                (nthD tgEntry 0 defaultTensorInfo)),
                          visited := e :: s.visited,
                          trace := ⟨e, tfind? s.tensor_table e⟩ :: s.trace } :=
                      ⟨hRMa, fun _ hx => hx, ⟨[], rfl⟩⟩
                    exact ⟨hs3, inferMono_trans hM (inferMono_trans hM2 hM3)⟩
    · -- visitInferredList
      intro s es s1 hs h
      match es, h with
      | [], h =>
        simp only [visitInferredList] at h
        cases h
        exact ⟨hs, inferMono_refl s⟩
      | e :: rest, h =>
        simp only [visitInferredList] at h
        split at h
        · exact Except.noConfusion h
        · rename_i s2 h2
          obtain ⟨hs2, hM2⟩ := ihVI s e s2 hs h2
          obtain ⟨hs3, hM3⟩ := ihVIL s2 rest s1 hs2 h
          exact ⟨hs3, inferMono_trans hM2 hM3⟩
    · -- visitExprList
      intro s es s1 hs hpre h
      match es, hpre, h with
      | [], _, h =>
        simp only [visitExprList] at h
        cases h
        exact ⟨hs, inferMono_refl s⟩
      | e :: rest, hpre, h =>
        simp only [visitExprList] at h
        split at h
        · exact Except.noConfusion h
        · rename_i s2 h2
          obtain ⟨hs2, hM2⟩ := ihVE s e s2 hs (hpre e (List.mem_cons_self e rest)) h2
          have hpre2 : ∀ x ∈ rest, ResolvedAt s2.tensor_table x := fun x hx =>
            hM2.1 x (hpre x (List.mem_cons_of_mem e hx))
          obtain ⟨hs3, hM3⟩ := ihVEL s2 rest s1 hs2 hpre2 h
          exact ⟨hs3, inferMono_trans hM2 hM3⟩

theorem outputSize_eq_arityOf (g : Graph) (e : Nat) :
    outputSize g e = arityOf g e := by
  unfold outputSize arityOf arity
  cases g.nodes[e]? with
  | none => rfl
  | some node => cases hty : node.ty <;> simp [hty]

theorem goodState_seed (g : Graph) (prev : List (Nat × List TensorInfo))
    (body : Nat) : GoodState g (inferSeed g prev body) := by
  constructor
  · intro k entry hk
    simp only [inferSeed, tclear] at hk
    rw [tfind?_tset] at hk
    by_cases hb : body = k
    · rw [if_pos hb] at hk
      cases hk
      rw [List.length_replicate, outputSize_eq_arityOf, hb]
    · rw [if_neg hb] at hk
      simp [tfind?] at hk
  · refine ⟨?_, ?_, ?_⟩
    · simp [inferSeed]
    · intro ev hev
      simp [inferSeed] at hev
    · intro ev hev
      simp [inferSeed] at hev

set_option maxHeartbeats 2000000 in
/-- C1: during metadata inference a node is dispatched only when its
tensor-table entry exists with every slot different from the
default-constructed sentinel, and no node is dispatched twice; on the
demonstration graph, where the two-output split node 1 is reached through
two distinct projection consumers, node 1 is expanded exactly once. -/
theorem C1_metadata_gating (api : EthosnAPIModel) (g : Graph) (fuel : Nat)
    (prev : List (Nat × List TensorInfo)) (body : Nat) (s1 : InferState)
    (hwf : graphWF g = true) (hapi : ApiOk api g)
    (hrun : Infer api g fuel prev body = .ok s1) :
    ((s1.trace.map InferEvent.node).Nodup ∧
     (∀ ev ∈ s1.trace, ∃ entry, ev.entry = some entry ∧
        ∀ info ∈ entry, info ≠ defaultTensorInfo)) ∧
    (Infer demoApi demoSplitGraph 10 [] 4).toOption.map
      (fun s => (s.trace.map InferEvent.node).count 1) = some 1 := by
  constructor
  · have hinv := (inferInvariantAux api g hwf hapi fuel).1
      (inferSeed g prev body) body s1 (goodState_seed g prev body) hrun
    exact ⟨hinv.1.2.1, hinv.1.2.2.2⟩
  · decide

set_option maxHeartbeats 2000000 in
/-- Concrete instantiation of `C1_metadata_gating`: the split demonstration
graph satisfies the hypotheses, inference succeeds on it, and the
conclusions hold for its run. -/
theorem C1_metadata_gating_witness :
    graphWF demoSplitGraph = true ∧ ApiOk demoApi demoSplitGraph ∧
    ∃ s1, Infer demoApi demoSplitGraph 10 [] 4 = .ok s1 ∧
      ((s1.trace.map InferEvent.node).Nodup ∧
       (∀ ev ∈ s1.trace, ∃ entry, ev.entry = some entry ∧
          ∀ info ∈ entry, info ≠ defaultTensorInfo)) ∧
      (Infer demoApi demoSplitGraph 10 [] 4).toOption.map
        (fun s => (s.trace.map InferEvent.node).count 1) = some 1 := by
  have hwf : graphWF demoSplitGraph = true := by decide
  have hapi : ApiOk demoApi demoSplitGraph := by
    constructor
    · intro c node op args h1 h2 h3
      exfalso
      have hc : c < 5 := by
        have := getElem?_some_lt h1
        simpa [demoSplitGraph] using this
      interval_cases c <;>
        first
        | (simp [demoSplitGraph] at h1; subst h1; simp at h2; done)
        | (simp [demoSplitGraph] at h1; subst h1;
           injection h2 with hop hargs; subst hop; exact absurd h3 (by decide))
    · intro c params
      rfl
  obtain ⟨s1, hrun⟩ : ∃ s1, Infer demoApi demoSplitGraph 10 [] 4 = .ok s1 := by
    have hsome : (Infer demoApi demoSplitGraph 10 [] 4).toOption.isSome = true := by
      decide
    cases hI : Infer demoApi demoSplitGraph 10 [] 4 with
    | ok s => exact ⟨s, rfl⟩
    | error err =>
      rw [hI] at hsome
      simp [Except.toOption] at hsome
  exact ⟨hwf, hapi, s1, hrun,
    C1_metadata_gating demoApi demoSplitGraph 10 [] 4 s1 hwf hapi hrun⟩

theorem constructTupleGo_frame :
    ∀ (fields : List Nat) (s : ConstructState) (tup : Nat),
      (constructTupleGo s tup fields).visited = s.visited ∧
      (constructTupleGo s tup fields).trace = s.trace := by
  intro fields
  induction fields with
  | nil =>
    intro s tup
    exact ⟨rfl, rfl⟩
  | cons a rest ih =>
    intro s tup
    simp only [constructTupleGo]
    by_cases hl : (tgetD s.operand_table a []).length = 1
    · rw [if_pos hl]
      exact ⟨by rw [(ih _ tup).1], by rw [(ih _ tup).2]⟩
    · rw [if_neg hl]
      exact ⟨by rw [(ih _ tup).1], by rw [(ih _ tup).2]⟩

theorem addOneParamInputs_frame :
    ∀ (infos : List TensorInfo) (p : Nat) (st : ConstructState)
      (ids : List (Nat × Nat)) (idx : Nat),
      (addOneParamInputs p infos st ids idx).1.visited = st.visited ∧
      (addOneParamInputs p infos st ids idx).1.trace = st.trace := by
  intro infos
  induction infos with
  | nil =>
    intro p st ids idx
    exact ⟨rfl, rfl⟩
  | cons info rest ih =>
    intro p st ids idx
    simp only [addOneParamInputs]
    exact ⟨by rw [(ih p _ _ _).1], by rw [(ih p _ _ _).2]⟩

theorem addParamInputs_frame :
    ∀ (params : List Nat) (st : ConstructState) (ids : List (Nat × Nat))
      (idx : Nat),
      (addParamInputs params st ids idx).1.visited = st.visited ∧
      (addParamInputs params st ids idx).1.trace = st.trace := by
  intro params
  induction params with
  | nil =>
    intro st ids idx
    exact ⟨rfl, rfl⟩
  | cons p rest ih =>
    intro st ids idx
    simp only [addParamInputs]
    constructor
    · rw [(ih _ _ _).1, (addOneParamInputs_frame (tgetD st.tensor_table p []) p st ids idx).1]
    · rw [(ih _ _ _).2, (addOneParamInputs_frame (tgetD st.tensor_table p []) p st ids idx).2]

theorem constructInvariantAux (api : EthosnAPIModel) (vb : VendorBehavior)
    (g : Graph) (hwf : graphWF g = true) :
    ∀ fuel : Nat,
      (∀ s e s1, ConstructTraceOK s →
         constructVisit api vb g fuel s e = .ok s1 →
         ConstructTraceOK s1 ∧ (∀ x ∈ s.visited, x ∈ s1.visited) ∧
         (∃ t, s1.trace = t ++ s.trace) ∧
         (∀ x ∈ s1.visited, x ∈ s.visited ∨ x ≤ e)) ∧
      (∀ s es s1, ConstructTraceOK s →
         constructVisitList api vb g fuel s es = .ok s1 →
         ConstructTraceOK s1 ∧ (∀ x ∈ s.visited, x ∈ s1.visited) ∧
         (∃ t, s1.trace = t ++ s.trace) ∧
         (∀ x ∈ s1.visited, x ∈ s.visited ∨ ∃ y ∈ es, x ≤ y)) := by
  intro fuel
  induction fuel with
  | zero =>
    constructor
    · intro s e s1 hs h
      simp only [constructVisit] at h
      cases h
      exact ⟨hs, fun _ hx => hx, ⟨[], rfl⟩, fun x hx => Or.inl hx⟩
    · intro s es s1 hs h
      simp only [constructVisitList] at h
      cases h
      exact ⟨hs, fun _ hx => hx, ⟨[], rfl⟩, fun x hx => Or.inl hx⟩
  | succ fuel ih =>
    obtain ⟨ihV, ihL⟩ := ih
    constructor
    · intro s e s1 hs h
      simp only [constructVisit] at h
      split at h
      · cases h
        exact ⟨hs, fun _ hx => hx, ⟨[], rfl⟩, fun x hx => Or.inl hx⟩
      · rename_i node hn
        split at h
        · cases h
          exact ⟨hs, fun _ hx => hx, ⟨[], rfl⟩, fun x hx => Or.inl hx⟩
        · split at h
          · cases h
            exact ⟨hs, fun _ hx => hx, ⟨[], rfl⟩, fun x hx => Or.inl hx⟩
          · rename_i hv
            split at h
            · exact Except.noConfusion h
            · rename_i s2 hlist
              obtain ⟨hs2, hm2a, hm2b, hb2⟩ :=
                ihL s (nodeChildren node.kind) s2 hs hlist
              have hchild := wf_children hwf hn
              have hev2 : e ∉ s2.visited := by
                intro hmem
                rcases hb2 e hmem with h1 | ⟨y, hy, hle⟩
                · exact hv h1
                · exact Nat.not_le.mpr (hchild y hy) hle
              have hconc : ∀ sF : ConstructState,
                  sF.visited = e :: s2.visited → sF.trace = e :: s2.trace →
                  ConstructTraceOK sF ∧ (∀ x ∈ s.visited, x ∈ sF.visited) ∧
                  (∃ t, sF.trace = t ++ s.trace) ∧
                  (∀ x ∈ sF.visited, x ∈ s.visited ∨ x ≤ e) := by
                intro sF hV hT
                obtain ⟨hnd, hsub⟩ := hs2
                refine ⟨⟨?_, ?_⟩, ?_, ?_, ?_⟩
                · rw [hT]
                  simp only [List.nodup_cons]
                  exact ⟨fun hmem => hev2 (hsub e hmem), hnd⟩
                · intro x hx
                  rw [hT] at hx
                  rw [hV]
                  rcases List.mem_cons.mp hx with h1 | h1
                  · rw [h1]
                    exact List.mem_cons_self _ _
                  · exact List.mem_cons_of_mem _ (hsub x h1)
                · intro x hx
                  rw [hV]
                  exact List.mem_cons_of_mem _ (hm2a x hx)
                · obtain ⟨t2, ht2⟩ := hm2b
                  exact ⟨e :: t2, by rw [hT, ht2, List.cons_append]⟩
                · intro x hx
                  rw [hV] at hx
                  rcases List.mem_cons.mp hx with h1 | h1
                  · exact Or.inr (by omega)
                  · rcases hb2 x h1 with h2 | ⟨y, hy, hle⟩
                    · exact Or.inl h2
                    · exact Or.inr (Nat.le_trans hle (Nat.le_of_lt (hchild y hy)))
              split at h
              · cases h
                exact hconc _ rfl rfl
              · cases h
                exact hconc _ rfl rfl
              · rename_i op args hk
                split at h
                · exact Except.noConfusion h
                · rename_i out hHC
                  cases h
                  exact hconc _ rfl rfl
              · rename_i fields hk
                cases h
                exact hconc _ (constructTupleGo_frame fields _ e).1
                  (constructTupleGo_frame fields _ e).2
              · rename_i tup index hk
                cases h
                exact hconc _ rfl rfl
    · intro s es s1 hs h
      match es, h with
      | [], h =>
        simp only [constructVisitList] at h
        cases h
        exact ⟨hs, fun _ hx => hx, ⟨[], rfl⟩, fun x hx => Or.inl hx⟩
      | e :: rest, h =>
        simp only [constructVisitList] at h
        split at h
        · exact Except.noConfusion h
        · rename_i s2 h2
          obtain ⟨hs2, hm2a, hm2b, hb2⟩ := ihV s e s2 hs h2
          obtain ⟨hs3, hm3a, hm3b, hb3⟩ := ihL s2 rest s1 hs2 h
          refine ⟨hs3, fun x hx => hm3a x (hm2a x hx), ?_, ?_⟩
          · obtain ⟨t2, ht2⟩ := hm2b
            obtain ⟨t3, ht3⟩ := hm3b
            exact ⟨t3 ++ t2, by rw [ht3, ht2, List.append_assoc]⟩
          · intro x hx
            rcases hb3 x hx with h1 | ⟨y, hy, hle⟩
            · rcases hb2 x h1 with h2 | h2
              · exact Or.inl h2
              · exact Or.inr ⟨e, List.mem_cons_self e rest, h2⟩
            · exact Or.inr ⟨y, List.mem_cons_of_mem e hy, hle⟩

set_option maxHeartbeats 2000000 in
/-- C2: in the network-construction traversal no node is dispatched
(translated) twice; on the demonstration graph, where parameter node 0 is an
argument of the two concatenate operations (nodes 2 and 4), node 0 is
translated exactly once, the operand handle looked up for it in both
argument tuples is the same, and the Network holds exactly the four
operations (one input, two concatenations, one output). -/
theorem C2_translate_once (api : EthosnAPIModel) (vb : VendorBehavior)
    (g : Graph) (fuel : Nat) (po : List (Nat × List (Option Operand)))
    (pt : List (Nat × List TensorInfo)) (func : RFunction)
    (nw : NetworkWithIDs) (sF : ConstructState) (hwf : graphWF g = true)
    (hrun : Construct api vb g fuel po pt func = .ok (nw, sF)) :
    sF.trace.Nodup ∧
    (Construct demoApi demoVb demoShareGraph 10 [] [] ⟨[0], 4⟩).toOption.map
      (fun p => (p.2.trace.count 0,
                 nthD (tgetD p.2.operand_table 1 []) 0 none,
                 nthD (tgetD p.2.operand_table 3 []) 0 none,
                 p.1.network.ops.length))
      = some (1, some (0, 0), some (0, 0), 4) := by
  constructor
  · simp only [Construct] at hrun
    split at hrun
    · exact Except.noConfusion hrun
    · rename_i inferred hinf
      split at hrun
      · exact Except.noConfusion hrun
      · rename_i s2 hvisit
        have hframe := addParamInputs_frame func.params
          { network := CreateNetwork, operand_table := tclear po, id_table := []
            tensor_table := inferred.tensor_table, visited := [], trace := [] }
          [] 0
        have hct : ConstructTraceOK (addParamInputs func.params
            { network := CreateNetwork, operand_table := tclear po, id_table := []
              tensor_table := inferred.tensor_table, visited := [], trace := [] }
            [] 0).1 := by
          constructor
          · rw [hframe.2]
            exact List.nodup_nil
          · intro x hx
            rw [hframe.2] at hx
            exact absurd hx (List.not_mem_nil x)
        obtain ⟨⟨hnd, _⟩, _, _, _⟩ :=
          (constructInvariantAux api vb g hwf fuel).1 _ func.body s2 hct hvisit
        have h1 := Except.ok.inj hrun
        have h2 := congrArg (fun p : NetworkWithIDs × ConstructState => p.2.trace) h1
        have hsF : sF.trace = s2.trace := h2.symm
        rw [hsF]
        exact hnd
  · decide

set_option maxHeartbeats 2000000 in
/-- Concrete instantiation of `C2_translate_once` on the sharing
demonstration graph. -/
theorem C2_translate_once_witness :
    graphWF demoShareGraph = true ∧
    ∃ nw sF,
      Construct demoApi demoVb demoShareGraph 10 [] [] ⟨[0], 4⟩ = .ok (nw, sF) ∧
      sF.trace.Nodup ∧
      (Construct demoApi demoVb demoShareGraph 10 [] [] ⟨[0], 4⟩).toOption.map
        (fun p => (p.2.trace.count 0,
                   nthD (tgetD p.2.operand_table 1 []) 0 none,
                   nthD (tgetD p.2.operand_table 3 []) 0 none,
                   p.1.network.ops.length))
        = some (1, some (0, 0), some (0, 0), 4) := by
  have hwf : graphWF demoShareGraph = true := by decide
  obtain ⟨nw, sF, hrun⟩ : ∃ nw sF,
      Construct demoApi demoVb demoShareGraph 10 [] [] ⟨[0], 4⟩ = .ok (nw, sF) := by
    have hsome : (Construct demoApi demoVb demoShareGraph 10 [] [] ⟨[0], 4⟩).toOption.isSome
        = true := by decide
    cases hI : Construct demoApi demoVb demoShareGraph 10 [] [] ⟨[0], 4⟩ with
    | ok p => exact ⟨p.1, p.2, rfl⟩
    | error err =>
      rw [hI] at hsome
      simp [Except.toOption] at hsome
  exact ⟨hwf, nw, sF, hrun,
    C2_translate_once demoApi demoVb demoShareGraph 10 [] [] ⟨[0], 4⟩ nw sF hwf hrun⟩

/-- C3 counterexample: the descriptors the seeding step writes are not
default-constructed sentinels.  On the single-parameter graph the body's
entry is initialized with the 1x1x1x1 placeholder descriptor, which differs
from the unresolved sentinel `sl::TensorInfo()`. -/
theorem C3_seed_counterexample :
    tfind? (inferSeed demoVarGraph [] 0).tensor_table 0 = some [seedTensorInfo] ∧
    seedTensorInfo ≠ defaultTensorInfo := by
  decide

/-- C3 (amended): the body's tensor-table entry is initialized with as many
copies of the fixed placeholder descriptor (shape 1x1x1x1, 8-bit quantized,
NHWC, default quantization) as the body has logical outputs (N for an
N-tuple checked type, 1 otherwise); the placeholder differs from the
unresolved default-constructed sentinel, so the seeded entry passes the
visit gate. -/
theorem C3_seed_placeholder (g : Graph) (prev : List (Nat × List TensorInfo))
    (expr : Nat) :
    tfind? (inferSeed g prev expr).tensor_table expr =
      some (List.replicate (outputSize g expr) seedTensorInfo) ∧
    (∀ node, g.nodes[expr]? = some node → ∀ n, node.ty = .tupleType n →
       outputSize g expr = n) ∧
    (∀ node, g.nodes[expr]? = some node → node.ty = .plain →
       outputSize g expr = 1) ∧
    seedTensorInfo ≠ defaultTensorInfo := by
  refine ⟨?_, ?_, ?_, by decide⟩
  · simp only [inferSeed, tclear]
    exact tfind?_tset_self [] expr _
  · intro node hn n hty
    simp [outputSize, hn, hty]
  · intro node hn hty
    simp [outputSize, hn, hty]

/-- Concrete instantiation of `C3_seed_placeholder` on the split
demonstration graph, whose body is a 2-tuple. -/
theorem C3_seed_placeholder_witness :
    tfind? (inferSeed demoSplitGraph [] 4).tensor_table 4 =
      some (List.replicate (outputSize demoSplitGraph 4) seedTensorInfo) ∧
    outputSize demoSplitGraph 4 = 2 ∧
    seedTensorInfo ≠ defaultTensorInfo := by
  have h := C3_seed_placeholder demoSplitGraph [] 4
  refine ⟨h.1, ?_, h.2.2.2⟩
  exact h.2.1 { kind := .tuple [2, 3], ty := .tupleType 2 } (by decide) 2 rfl

theorem nthD_set_self {α : Type} (l : List α) (i : Nat) (v d : α)
    (h : i < l.length) : nthD (l.set i v) i d = v := by
  induction l generalizing i with
  | nil => simp at h
  | cons a tl ih =>
    cases i with
    | zero => rfl
    | succ i =>
      have h1 : i < tl.length := by simpa using h
      exact ih i h1

/-- C4: dispatching a TupleProjection node whose own entry exists resizes
the source tuple's entry to the declared arity when that entry is absent,
writes the projection's descriptor into the projected slot, and then
attempts a gated recursion into the tuple, which does nothing while a slot
is still unresolved and expands the tuple once the gate passes. -/
theorem C4_tuple_projection (api : EthosnAPIModel) (g : Graph) (fuel : Nat)
    (s : InferState) (e tup index n : Nat) (node tnode : Node)
    (tgEntry : List TensorInfo) (table1 table2 : List (Nat × List TensorInfo))
    (s2 : InferState)
    (hv : e ∉ s.visited)
    (hn : g.nodes[e]? = some node) (hk : node.kind = .tupleGetItem tup index)
    (hfind : tfind? s.tensor_table e = some tgEntry)
    (htn : g.nodes[tup]? = some tnode) (hty : tnode.ty = .tupleType n)
    (hidx : index < n)
    (harr : ∀ entry, tfind? s.tensor_table tup = some entry → entry.length = n)
    (htable1 : table1 = match tfind? s.tensor_table tup with
       | none => tset s.tensor_table tup (List.replicate n defaultTensorInfo)
       | some _ => s.tensor_table)
    (htable2 : table2 = tset table1 tup
       ((tgetD table1 tup []).set index (nthD tgEntry 0 defaultTensorInfo)))
    (hs2 : s2 = { tensor_table := table2, visited := e :: s.visited,
                  trace := ⟨e, tfind? s.tensor_table e⟩ :: s.trace }) :
    (tfind? s.tensor_table tup = none →
       table1 = tset s.tensor_table tup (List.replicate n defaultTensorInfo) ∧
       (tgetD table1 tup []).length = n) ∧
    (∃ entry2, tfind? table2 tup = some entry2 ∧ entry2.length = n ∧
       nthD entry2 index defaultTensorInfo = nthD tgEntry 0 defaultTensorInfo) ∧
    visitExpr api g (fuel + 1) s e = visitInferred api g fuel s2 tup ∧
    (fullyInferred s2 tup = false → visitInferred api g fuel s2 tup = .ok s2) ∧
    (fullyInferred s2 tup = true →
       visitInferred api g (fuel + 1) s2 tup = visitExpr api g fuel s2 tup) := by
  have hlen1 : (tgetD table1 tup []).length = n := by
    cases hprev : tfind? s.tensor_table tup with
    | none =>
      rw [htable1]
      simp only [hprev]
      unfold tgetD
      rw [tfind?_tset_self]
      simp
    | some prevEntry =>
      rw [htable1]
      simp only [hprev]
      unfold tgetD
      rw [hprev]
      exact harr prevEntry hprev
  refine ⟨?_, ?_, ?_, ?_, ?_⟩
  · intro habs
    constructor
    · rw [htable1]
      simp only [habs]
    · exact hlen1
  · refine ⟨(tgetD table1 tup []).set index (nthD tgEntry 0 defaultTensorInfo),
      by rw [htable2]; exact tfind?_tset_self _ _ _, ?_, ?_⟩
    · rw [List.length_set]
      exact hlen1
    · exact nthD_set_self _ _ _ _ (by rw [hlen1]; exact hidx)
  · simp only [visitExpr]
    rw [if_neg hv]
    simp only [hn, hk, hfind, htn, hty]
    rw [htable2, htable1] at hs2
    rw [hs2, hfind]
  · intro hgate
    cases fuel with
    | zero => simp only [visitInferred]
    | succ f =>
      simp only [visitInferred, hgate]
      simp
  · intro hgate
    simp only [visitInferred, hgate, if_true]

/-- Concrete instantiation of `C4_tuple_projection`: projecting slot 0 of
the two-output split node from a state where only the projection's own entry
is resolved resizes the split's entry to two sentinel slots and writes the
projected descriptor into slot 0. -/
theorem C4_tuple_projection_witness :
    ∃ entry2,
      tfind? [(2, [seedTensorInfo]), (1, [seedTensorInfo, defaultTensorInfo])] 1 =
        some entry2 ∧
      entry2.length = 2 ∧
      nthD entry2 0 defaultTensorInfo = nthD [seedTensorInfo] 0 defaultTensorInfo :=
  (C4_tuple_projection demoApi demoSplitGraph 5
    { tensor_table := [(2, [seedTensorInfo])], visited := [], trace := [] }
    2 1 0 2
    { kind := .tupleGetItem 1 0, ty := .plain }
    { kind := .call (.opNode "split") [0], ty := .tupleType 2 }
    [seedTensorInfo]
    [(2, [seedTensorInfo]), (1, [defaultTensorInfo, defaultTensorInfo])]
    [(2, [seedTensorInfo]), (1, [seedTensorInfo, defaultTensorInfo])]
    { tensor_table := [(2, [seedTensorInfo]), (1, [seedTensorInfo, defaultTensorInfo])],
      visited := [2], trace := [⟨2, some [seedTensorInfo]⟩] }
    (by decide) (by decide) (by decide) (by decide) (by decide) (by decide)
    (by decide)
    (fun entry h => by simp [tfind?] at h)
    (by decide) (by decide) (by decide)).2.1

theorem constructTupleGo_spec :
    ∀ (fields : List Nat) (s : ConstructState) (tup : Nat), tup ∉ fields →
      tgetD (constructTupleGo s tup fields).operand_table tup [] =
        tgetD s.operand_table tup [] ++ fields.map (fun a =>
          if (tgetD s.operand_table a []).length = 1
          then nthD (tgetD s.operand_table a []) 0 none else none) ∧
      tgetD (constructTupleGo s tup fields).id_table tup [] =
        tgetD s.id_table tup [] ++ fields.map (fun a =>
          if (tgetD s.operand_table a []).length = 1
          then nthD (tgetD s.id_table a []) 0 (0, 0) else (0, 0)) := by
  intro fields
  induction fields with
  | nil =>
    intro s tup _
    simp [constructTupleGo]
  | cons a rest ih =>
    intro s tup htup
    have hat : a ≠ tup := fun h => htup (h ▸ List.mem_cons_self a rest)
    have htup2 : tup ∉ rest := fun h => htup (List.mem_cons_of_mem a h)
    simp only [constructTupleGo]
    by_cases hl : (tgetD s.operand_table a []).length = 1
    · rw [if_pos hl]
      obtain ⟨ih1, ih2⟩ := ih
        { s with
            operand_table :=
              tset s.operand_table tup
                (tgetD s.operand_table tup [] ++ [nthD (tgetD s.operand_table a []) 0 none])
            id_table :=
              tset s.id_table tup
                (tgetD s.id_table tup [] ++ [nthD (tgetD s.id_table a []) 0 (0, 0)]) }
        tup htup2
      rw [ih1, ih2]
      have hOtup : tgetD (tset s.operand_table tup
          (tgetD s.operand_table tup [] ++ [nthD (tgetD s.operand_table a []) 0 none])) tup []
          = tgetD s.operand_table tup [] ++ [nthD (tgetD s.operand_table a []) 0 none] := by
        unfold tgetD
        rw [tfind?_tset_self]
        exact rfl
      have hItup : tgetD (tset s.id_table tup
          (tgetD s.id_table tup [] ++ [nthD (tgetD s.id_table a []) 0 (0, 0)])) tup []
          = tgetD s.id_table tup [] ++ [nthD (tgetD s.id_table a []) 0 (0, 0)] := by
        unfold tgetD
        rw [tfind?_tset_self]
        exact rfl
      have hOother : ∀ x ∈ rest, tgetD (tset s.operand_table tup
          (tgetD s.operand_table tup [] ++ [nthD (tgetD s.operand_table a []) 0 none])) x []
          = tgetD s.operand_table x [] := by
        intro x hx
        have : tup ≠ x := fun h => htup2 (h ▸ hx)
        unfold tgetD
        rw [tfind?_tset_ne _ _ this]
      have hIother : ∀ x ∈ rest, tgetD (tset s.id_table tup
          (tgetD s.id_table tup [] ++ [nthD (tgetD s.id_table a []) 0 (0, 0)])) x []
          = tgetD s.id_table x [] := by
        intro x hx
        have : tup ≠ x := fun h => htup2 (h ▸ hx)
        unfold tgetD
        rw [tfind?_tset_ne _ _ this]
      constructor
      · rw [hOtup]
        rw [List.map_congr_left (fun x hx => by rw [hOother x hx])]
        simp [hl, List.append_assoc]
      · rw [hItup]
        rw [List.map_congr_left (fun x hx => by rw [hOother x hx, hIother x hx])]
        simp [hl, List.append_assoc]
    · rw [if_neg hl]
      obtain ⟨ih1, ih2⟩ := ih
        { s with
            operand_table := tset s.operand_table tup (tgetD s.operand_table tup [] ++ [none])
            id_table := tset s.id_table tup (tgetD s.id_table tup [] ++ [(0, 0)]) }
        tup htup2
      rw [ih1, ih2]
      have hOtup : tgetD (tset s.operand_table tup
          (tgetD s.operand_table tup [] ++ [none])) tup []
          = tgetD s.operand_table tup [] ++ [none] := by
        unfold tgetD
        rw [tfind?_tset_self]
        exact rfl
      have hItup : tgetD (tset s.id_table tup
          (tgetD s.id_table tup [] ++ [(0, 0)])) tup []
          = tgetD s.id_table tup [] ++ [(0, 0)] := by
        unfold tgetD
        rw [tfind?_tset_self]
        exact rfl
      have hOother : ∀ x ∈ rest, tgetD (tset s.operand_table tup
          (tgetD s.operand_table tup [] ++ [none])) x []
          = tgetD s.operand_table x [] := by
        intro x hx
        have : tup ≠ x := fun h => htup2 (h ▸ hx)
        unfold tgetD
        rw [tfind?_tset_ne _ _ this]
      have hIother : ∀ x ∈ rest, tgetD (tset s.id_table tup
          (tgetD s.id_table tup [] ++ [(0, 0)])) x []
          = tgetD s.id_table x [] := by
        intro x hx
        have : tup ≠ x := fun h => htup2 (h ▸ hx)
        unfold tgetD
        rw [tfind?_tset_ne _ _ this]
      constructor
      · rw [hOtup]
        rw [List.map_congr_left (fun x hx => by rw [hOother x hx])]
        simp [hl, List.append_assoc]
      · rw [hItup]
        rw [List.map_congr_left (fun x hx => by rw [hOother x hx, hIother x hx])]
        simp [hl, List.append_assoc]

/-- C5: dispatching a Tuple node in the construction engine builds the
tuple's operand- and identifier-table entries field by field: a field whose
operand entry has exactly one element contributes that operand and its
identifier, any other field contributes a null operand and a (0, 0)
identifier; both resulting entries have exactly one element per tuple
field. -/
theorem C5_tuple_entries (s : ConstructState) (tup : Nat) (fields : List Nat)
    (hO : tfind? s.operand_table tup = none)
    (hI : tfind? s.id_table tup = none)
    (hnotin : tup ∉ fields) :
    tgetD (constructTupleGo s tup fields).operand_table tup [] =
      fields.map (fun a =>
        if (tgetD s.operand_table a []).length = 1
        then nthD (tgetD s.operand_table a []) 0 none else none) ∧
    tgetD (constructTupleGo s tup fields).id_table tup [] =
      fields.map (fun a =>
        if (tgetD s.operand_table a []).length = 1
        then nthD (tgetD s.id_table a []) 0 (0, 0) else (0, 0)) ∧
    (tgetD (constructTupleGo s tup fields).operand_table tup []).length =
      fields.length ∧
    (tgetD (constructTupleGo s tup fields).id_table tup []).length =
      fields.length := by
  have hO0 : tgetD s.operand_table tup [] = [] := by
    unfold tgetD
    rw [hO]
    exact rfl
  have hI0 : tgetD s.id_table tup [] = [] := by
    unfold tgetD
    rw [hI]
    exact rfl
  obtain ⟨h1, h2⟩ := constructTupleGo_spec fields s tup hnotin
  rw [hO0] at h1
  rw [hI0] at h2
  simp only [List.nil_append] at h1 h2
  exact ⟨h1, h2, by rw [h1, List.length_map], by rw [h2, List.length_map]⟩

/-- Concrete instantiation of `C5_tuple_entries`: a two-field tuple whose
first field has a singleton operand entry and whose second field's entry is
empty yields one copied operand-identifier pair and one null placeholder. -/
theorem C5_tuple_entries_witness :
    tgetD (constructTupleGo
      { network := ⟨[], 0⟩
        operand_table := [(0, [some (0, 0)])]
        id_table := [(0, [(0, 0)])]
        tensor_table := [], visited := [], trace := [] } 9 [0, 7]).operand_table 9 []
      = [some (0, 0), none] ∧
    tgetD (constructTupleGo
      { network := ⟨[], 0⟩
        operand_table := [(0, [some (0, 0)])]
        id_table := [(0, [(0, 0)])]
        tensor_table := [], visited := [], trace := [] } 9 [0, 7]).id_table 9 []
      = [(0, 0), (0, 0)] := by
  have h := C5_tuple_entries
    { network := ⟨[], 0⟩
      operand_table := [(0, [some (0, 0)])]
      id_table := [(0, [(0, 0)])]
      tensor_table := [], visited := [], trace := [] } 9 [0, 7]
    (by decide) (by decide) (by decide)
  exact ⟨h.1.trans (by decide), h.2.1.trans (by decide)⟩

/-- C6: a Call whose callee is neither the registered concatenate nor the
registered split operator (including non-operator callees) makes both
engines abort with a fatal "unknown operator" error attributed to the node,
and, end to end on the demonstration graph with an unregistered `add`
operator, the orchestrator produces no compiled output and never invokes the
vendor compiler. -/
theorem C6_unknown_operator (api : EthosnAPIModel) (vb : VendorBehavior)
    (g : Graph) (sI : InferState) (sC : ConstructState) (cn : Nat)
    (op : CalleeKind) (args : List Nat)
    (hc : IsEthosnOp op "qnn.concatenate" = false)
    (hs : IsEthosnOp op "split" = false) :
    inferCall api g sI cn op args = .error (.fatal cn ["unknown operator"]) ∧
    HandleCall api vb g sC cn op args = .error (.fatal cn ["unknown operator"]) ∧
    CompileEthosnFunc demoApi demoVb demoUnknownGraph
        (fun _ _ => [(⟨[], []⟩ : CompiledNetwork)]) () 10 "ethos-n_0" ⟨[0], 1⟩
      = (.error (.fatal 1 ["unknown operator"]), []) := by
  have hc1 : ¬ (IsEthosnOp op "qnn.concatenate" = true) := by simp [hc]
  have hs1 : ¬ (IsEthosnOp op "split" = true) := by simp [hs]
  refine ⟨?_, ?_, by decide⟩
  · simp only [inferCall]
    rw [if_neg hc1, if_neg hs1]
  · simp only [HandleCall]
    rw [if_neg hc1, if_neg hs1]

/-- Concrete instantiation of `C6_unknown_operator` at an `add` callee. -/
theorem C6_unknown_operator_witness :
    inferCall demoApi demoUnknownGraph
        { tensor_table := [], visited := [], trace := [] } 1 (.opNode "add") [0]
      = .error (.fatal 1 ["unknown operator"]) ∧
    HandleCall demoApi demoVb demoUnknownGraph
        { network := ⟨[], 0⟩, operand_table := [], id_table := []
          tensor_table := [], visited := [], trace := [] } 1 (.opNode "add") [0]
      = .error (.fatal 1 ["unknown operator"]) ∧
    CompileEthosnFunc demoApi demoVb demoUnknownGraph
        (fun _ _ => [(⟨[], []⟩ : CompiledNetwork)]) () 10 "ethos-n_0" ⟨[0], 1⟩
      = (.error (.fatal 1 ["unknown operator"]), []) :=
  C6_unknown_operator demoApi demoVb demoUnknownGraph
    { tensor_table := [], visited := [], trace := [] }
    { network := ⟨[], 0⟩, operand_table := [], id_table := []
      tensor_table := [], visited := [], trace := [] }
    1 (.opNode "add") [0] (by decide) (by decide)

/-- C7: when the vendor library throws its unsupported-operation exception
out of an operation-construction call, the operator handlers catch it at the
call site and return the structured error type carrying the exception's
message; the vendor exception never escapes the handlers. -/
theorem C7_vendor_exception_converted (api : EthosnAPIModel)
    (vb : VendorBehavior) (g : Graph) (s : ConstructState) (call : Nat)
    (args : List Nat) (m1 m2 : String)
    (hok1 : (api.concatenate g call).1.hasError = false)
    (hrej1 : vb.concatReject s.network
       (tgetD s.operand_table (args.headD 0) [])
       (api.concatenate g call).2.concat_info = some m1)
    (hok2 : (api.split g call
       { input_info := GetTensorInfo s.tensor_table call
         split_info := { axis := 0, sizes := [] } }).1.hasError = false)
    (hrej2 : vb.splitReject s.network
       (nthD (tgetD s.operand_table (args.headD 0) []) 0 none)
       (api.split g call
         { input_info := GetTensorInfo s.tensor_table call
           split_info := { axis := 0, sizes := [] } }).2.split_info = some m2) :
    MakeConcatenateLayer api vb g s call args = .error ⟨[m1]⟩ ∧
    MakeSplitLayer api vb g s call args = .error ⟨[m2]⟩ := by
  constructor
  · simp only [MakeConcatenateLayer, hok1, Bool.false_eq_true, if_false,
      AddConcatenation, hrej1]
  · simp only [MakeSplitLayer, hok2, Bool.false_eq_true, if_false,
      AddSplit, hrej2]

/-- Concrete instantiation of `C7_vendor_exception_converted` with a vendor
that rejects both operations. -/
theorem C7_vendor_exception_converted_witness :
    MakeConcatenateLayer demoApi
        { concatReject := fun _ _ _ => some "concat not supported"
          splitReject := fun _ _ _ => some "split not supported" }
        demoShareGraph
        { network := ⟨[], 0⟩, operand_table := [], id_table := []
          tensor_table := [], visited := [], trace := [] } 2 [1]
      = .error ⟨["concat not supported"]⟩ ∧
    MakeSplitLayer demoApi
        { concatReject := fun _ _ _ => some "concat not supported"
          splitReject := fun _ _ _ => some "split not supported" }
        demoShareGraph
        { network := ⟨[], 0⟩, operand_table := [], id_table := []
          tensor_table := [], visited := [], trace := [] } 2 [1]
      = .error ⟨["split not supported"]⟩ :=
  C7_vendor_exception_converted demoApi
    { concatReject := fun _ _ _ => some "concat not supported"
      splitReject := fun _ _ _ => some "split not supported" }
    demoShareGraph
    { network := ⟨[], 0⟩, operand_table := [], id_table := []
      tensor_table := [], visited := [], trace := [] }
    2 [1] "concat not supported" "split not supported"
    (by decide) rfl (by decide) rfl

theorem nthD_map {α β : Type} (f : α → β) (l : List α) (i : Nat) (d : α)
    (d2 : β) (h : i < l.length) : nthD (l.map f) i d2 = f (nthD l i d) := by
  induction l generalizing i with
  | nil => simp at h
  | cons a tl ih =>
    cases i with
    | zero => rfl
    | succ i => exact ih i (by simpa using h)

theorem tgetD_keys_map {κ α : Type} [DecidableEq κ] (pairs : List (κ × α))
    (d : α) (hnd : (pairs.map Prod.fst).Nodup) :
    (pairs.map Prod.fst).map (fun k => tgetD pairs k d) = pairs.map Prod.snd := by
  induction pairs with
  | nil => rfl
  | cons hd tl ih =>
    obtain ⟨k, v⟩ := hd
    simp only [List.map_cons] at hnd
    rw [List.nodup_cons] at hnd
    simp only [List.map_cons]
    congr 1
    · simp [tgetD, tfind?]
    · have hstep : ∀ x ∈ tl.map Prod.fst,
          tgetD ((k, v) :: tl) x d = tgetD tl x d := by
        intro x hx
        have hne : ¬ (k = x) := fun h => hnd.1 (h ▸ hx)
        simp [tgetD, tfind?, hne]
      rw [List.map_congr_left hstep]
      exact ih hnd.2

/-- C8: when the recorded id maps are injective with positions covering
exactly [0, count) and the artifact's buffer metadata enumerates exactly the
recorded source ids, the reconciled input- and output-order vectors are
permutations of [0, input-count) and [0, output-count), and entry i of each
vector is the position recorded in the corresponding id map for buffer i's
source operation id (and output index, for outputs). -/
theorem C8_order_fidelity (network : NetworkWithIDs)
    (compiled : CompiledNetwork) (nIn nOut : Nat)
    (hkeysN : (network.input_ids.map Prod.fst).Nodup)
    (hvals : (network.input_ids.map Prod.snd).Perm (List.range nIn))
    (hcover : (compiled.inputBufferInfos.map InputBufferInfo.m_SourceOperationId).Perm
       (network.input_ids.map Prod.fst))
    (hkeysO : (network.output_ids.map Prod.fst).Nodup)
    (hvalsO : (network.output_ids.map Prod.snd).Perm (List.range nOut))
    (hcoverO : (compiled.outputBufferInfos.map
        (fun o => (o.m_SourceOperationId, o.m_SourceOperationOutputIndex))).Perm
       (network.output_ids.map Prod.fst)) :
    (GetInputOutputOrder network compiled).1.Perm (List.range nIn) ∧
    (GetInputOutputOrder network compiled).2.Perm (List.range nOut) ∧
    (∀ i, i < compiled.inputBufferInfos.length →
       nthD (GetInputOutputOrder network compiled).1 i 0 =
       tgetD network.input_ids
         (nthD compiled.inputBufferInfos i ⟨0⟩).m_SourceOperationId 0) ∧
    (∀ j, j < compiled.outputBufferInfos.length →
       nthD (GetInputOutputOrder network compiled).2 j 0 =
       tgetD network.output_ids
         ((nthD compiled.outputBufferInfos j ⟨0, 0⟩).m_SourceOperationId,
          (nthD compiled.outputBufferInfos j ⟨0, 0⟩).m_SourceOperationOutputIndex) 0) := by
  have hIn : (GetInputOutputOrder network compiled).1 =
      (compiled.inputBufferInfos.map InputBufferInfo.m_SourceOperationId).map
        (fun k => tgetD network.input_ids k 0) := by
    simp [GetInputOutputOrder, List.map_map, Function.comp]
  have hOut : (GetInputOutputOrder network compiled).2 =
      (compiled.outputBufferInfos.map
          (fun o => (o.m_SourceOperationId, o.m_SourceOperationOutputIndex))).map
        (fun k => tgetD network.output_ids k 0) := by
    simp [GetInputOutputOrder, List.map_map, Function.comp]
  have e1 := tgetD_keys_map network.input_ids 0 hkeysN
  have e2 := tgetD_keys_map network.output_ids 0 hkeysO
  refine ⟨?_, ?_, ?_, ?_⟩
  · rw [hIn]
    refine (hcover.map (fun k => tgetD network.input_ids k 0)).trans ?_
    rw [e1]
    exact hvals
  · rw [hOut]
    refine (hcoverO.map (fun k => tgetD network.output_ids k 0)).trans ?_
    rw [e2]
    exact hvalsO
  · intro i hi
    have := nthD_map (fun b : InputBufferInfo => tgetD network.input_ids b.m_SourceOperationId 0)
      compiled.inputBufferInfos i ⟨0⟩ 0 hi
    simpa [GetInputOutputOrder] using this
  · intro j hj
    have := nthD_map (fun b : OutputBufferInfo => tgetD network.output_ids
        (b.m_SourceOperationId, b.m_SourceOperationOutputIndex) 0)
      compiled.outputBufferInfos j ⟨0, 0⟩ 0 hj
    simpa [GetInputOutputOrder] using this

/-- Concrete instantiation of `C8_order_fidelity`: a two-input, one-output
artifact whose buffers come back in permuted order is reconciled to a
permutation of [0, 2) and [0, 1). -/
theorem C8_order_fidelity_witness :
    (GetInputOutputOrder
        { network := ⟨[], 0⟩, input_ids := [(5, 0), (3, 1)]
          output_ids := [((7, 0), 0)] }
        { inputBufferInfos := [⟨3⟩, ⟨5⟩], outputBufferInfos := [⟨7, 0⟩] }).1.Perm
      (List.range 2) ∧
    (GetInputOutputOrder
        { network := ⟨[], 0⟩, input_ids := [(5, 0), (3, 1)]
          output_ids := [((7, 0), 0)] }
        { inputBufferInfos := [⟨3⟩, ⟨5⟩], outputBufferInfos := [⟨7, 0⟩] }).2.Perm
      (List.range 1) := by
  have h := C8_order_fidelity
    { network := ⟨[], 0⟩, input_ids := [(5, 0), (3, 1)], output_ids := [((7, 0), 0)] }
    { inputBufferInfos := [⟨3⟩, ⟨5⟩], outputBufferInfos := [⟨7, 0⟩] }
    2 1 (by decide) (by decide) (by decide) (by decide) (by decide) (by decide)
  exact ⟨h.1, h.2.1⟩

/-- C9: the orchestrator invokes the vendor compiler exactly once, with the
constructed Network and the materialized options; an empty candidate list
aborts with the fatal "failed to compile" check, and otherwise the first
candidate is selected and packaged with the reconciled orders. -/
theorem C9_vendor_compile_once {O : Type} (api : EthosnAPIModel)
    (vb : VendorBehavior) (g : Graph)
    (compiler : Network → O → List CompiledNetwork) (options : O) (fuel : Nat)
    (name : String) (func : RFunction) (nw : NetworkWithIDs)
    (s : ConstructState)
    (hc : Construct api vb g fuel [] [] func = .ok (nw, s)) :
    (CompileEthosnFunc api vb g compiler options fuel name func).2 =
      [(nw.network, options)] ∧
    (compiler nw.network options = [] →
       (CompileEthosnFunc api vb g compiler options fuel name func).1 =
       .error (.checkFail "Ethos-N compiler failed to compile network")) ∧
    (∀ c cs, compiler nw.network options = c :: cs →
       (CompileEthosnFunc api vb g compiler options fuel name func).1 =
       .ok { name := name, cmm := c
             inputs := (GetInputOutputOrder nw c).1
             outputs := (GetInputOutputOrder nw c).2 }) := by
  refine ⟨?_, ?_, ?_⟩
  · simp only [CompileEthosnFunc, hc]
    cases hcc : compiler nw.network options with
    | nil => simp [hcc]
    | cons c cs => simp [hcc]
  · intro h0
    simp only [CompileEthosnFunc, hc, h0]
  · intro c cs hcc
    simp only [CompileEthosnFunc, hc, hcc]

set_option maxHeartbeats 2000000 in
/-- Concrete instantiation of `C9_vendor_compile_once`: on the sharing
demonstration graph the vendor compiler receives the constructed Network
exactly once, and an empty candidate list aborts the compilation. -/
theorem C9_vendor_compile_once_witness :
    ∃ nw s,
      Construct demoApi demoVb demoShareGraph 10 [] [] ⟨[0], 4⟩ = .ok (nw, s) ∧
      (CompileEthosnFunc demoApi demoVb demoShareGraph
          (fun _ _ => ([] : List CompiledNetwork)) () 10 "ethos-n_0" ⟨[0], 4⟩).2 =
        [(nw.network, ())] ∧
      (CompileEthosnFunc demoApi demoVb demoShareGraph
          (fun _ _ => ([] : List CompiledNetwork)) () 10 "ethos-n_0" ⟨[0], 4⟩).1 =
        .error (.checkFail "Ethos-N compiler failed to compile network") := by
  obtain ⟨nw, s, hrun⟩ : ∃ nw s,
      Construct demoApi demoVb demoShareGraph 10 [] [] ⟨[0], 4⟩ = .ok (nw, s) := by
    have hsome : (Construct demoApi demoVb demoShareGraph 10 [] [] ⟨[0], 4⟩).toOption.isSome
        = true := by decide
    cases hI : Construct demoApi demoVb demoShareGraph 10 [] [] ⟨[0], 4⟩ with
    | ok p => exact ⟨p.1, p.2, rfl⟩
    | error err =>
      rw [hI] at hsome
      simp [Except.toOption] at hsome
  have h := C9_vendor_compile_once demoApi demoVb demoShareGraph
    (fun _ _ => ([] : List CompiledNetwork)) () 10 "ethos-n_0" ⟨[0], 4⟩ nw s hrun
  exact ⟨nw, s, hrun, h.1, h.2.1 rfl⟩

/-- C10: the tensor table is cleared at the start of each inference run and
the operand table at the start of each construction run, while the
identifier table and visit markers are scoped to the per-compilation visitor
object, so the result of compiling a function does not depend on the table
contents left over from any earlier compilation. -/
theorem C10_tables_scoped (api : EthosnAPIModel) (vb : VendorBehavior)
    (g : Graph) (fuel : Nat) (prev : List (Nat × List TensorInfo))
    (po : List (Nat × List (Option Operand)))
    (pt : List (Nat × List TensorInfo)) (expr : Nat) (func : RFunction) :
    Infer api g fuel prev expr = Infer api g fuel [] expr ∧
    Construct api vb g fuel po pt func = Construct api vb g fuel [] [] func :=
  ⟨rfl, rfl⟩

end EthosnCodegen
